import Mathlib

/-!
# Verification of the cdimage disc-addressing and sector-synthesis core

Shallow embedding of the Rust sources under `src/` (bcd.rs, msf.rs,
disc_position.rs, subchannel.rs, sector.rs, internal.rs, lib.rs, cue/mod.rs).
Machine bytes (`u8`) and words (`u16`/`u32`) are embedded as `Nat`; the Rust
code never relies on wrap-around for these values (BCD bytes are at most
0x99, sector indices at most 449_999), so no modular reduction is needed
except where noted.  Fallible Rust functions returning `Option`/`CdResult`
become `Option`/`Except CdError`.
-/

namespace Cdimage

/-- src/lib.rs `CdError`.  Constructors carrying only diagnostic payloads
(paths, line numbers, description strings, `io::Error` objects) are kept as
bare constructors here. -/
inductive CdError where
  | IoError
  | BadFormat
  | LeadOut
  | ParseError
  | BadImage
  | BadTrack
  | EndOfTrack
  | BadSyncPattern
  | BadBcd
  | InvalidSubQCRC
  | Unsupported
  | EmptyToc
  deriving DecidableEq

instance {ε α : Type} [DecidableEq ε] [DecidableEq α] : DecidableEq (Except ε α) := fun x y =>
  match x, y with
  | .ok a, .ok b =>
    if h : a = b then isTrue (by rw [h])
    else isFalse (by intro he; injection he; contradiction)
  | .error a, .error b =>
    if h : a = b then isTrue (by rw [h])
    else isFalse (by intro he; injection he; contradiction)
  | .ok _, .error _ => isFalse (by intro he; cases he)
  | .error _, .ok _ => isFalse (by intro he; cases he)

/-- src/bcd.rs `Bcd`: a packed BCD value stored as a raw byte.  The Rust type
is a newtype over `u8` whose public constructors enforce validity; the
embedding carries the raw byte and tracks the invariant as `Bcd.Valid`. -/
structure Bcd where
  bcd : Nat
  deriving DecidableEq

/-- The invariant every Rust `Bcd` value satisfies by construction: the byte
is at most 0x99 and its low nibble is a decimal digit. -/
def Bcd.Valid (b : Bcd) : Prop := b.bcd ≤ 0x99 ∧ b.bcd % 16 ≤ 9

instance (b : Bcd) : Decidable b.Valid := by unfold Bcd.Valid; infer_instance

/-- src/bcd.rs `Bcd::TABLE`: the 100 valid BCD bytes indexed by binary value. -/
def Bcd.TABLE : List Nat :=
  [0x00, 0x01, 0x02, 0x03, 0x04, 0x05, 0x06, 0x07, 0x08, 0x09,
   0x10, 0x11, 0x12, 0x13, 0x14, 0x15, 0x16, 0x17, 0x18, 0x19,
   0x20, 0x21, 0x22, 0x23, 0x24, 0x25, 0x26, 0x27, 0x28, 0x29,
   0x30, 0x31, 0x32, 0x33, 0x34, 0x35, 0x36, 0x37, 0x38, 0x39,
   0x40, 0x41, 0x42, 0x43, 0x44, 0x45, 0x46, 0x47, 0x48, 0x49,
   0x50, 0x51, 0x52, 0x53, 0x54, 0x55, 0x56, 0x57, 0x58, 0x59,
   0x60, 0x61, 0x62, 0x63, 0x64, 0x65, 0x66, 0x67, 0x68, 0x69,
   0x70, 0x71, 0x72, 0x73, 0x74, 0x75, 0x76, 0x77, 0x78, 0x79,
   0x80, 0x81, 0x82, 0x83, 0x84, 0x85, 0x86, 0x87, 0x88, 0x89,
   0x90, 0x91, 0x92, 0x93, 0x94, 0x95, 0x96, 0x97, 0x98, 0x99]

/-- src/bcd.rs `Bcd::ZERO` (`TABLE[0]`). -/
def Bcd.ZERO : Bcd := ⟨0x00⟩

/-- src/bcd.rs `Bcd::ONE` (`TABLE[1]`). -/
def Bcd.ONE : Bcd := ⟨0x01⟩

/-- src/bcd.rs `Bcd::MAX` (`TABLE[99]`). -/
def Bcd.MAX : Bcd := ⟨0x99⟩

/-- src/bcd.rs `Bcd::from_bcd`. -/
def Bcd.from_bcd (b : Nat) : Option Bcd :=
  if b ≤ 0x99 ∧ b % 16 ≤ 9 then some ⟨b⟩ else none

/-- src/bcd.rs `Bcd::from_binary` (a `TABLE` lookup guarded by the bound). -/
def Bcd.from_binary (b : Nat) : Option Bcd :=
  if b < Bcd.TABLE.length then some ⟨Bcd.TABLE.getD b 0⟩ else none

/-- src/bcd.rs `Bcd::binary`: `(b >> 4) * 10 + (b & 0xf)`. -/
def Bcd.binary (b : Bcd) : Nat := (b.bcd / 16) * 10 + b.bcd % 16

/-- src/bcd.rs `Bcd::wrapping_next`.  `(b & 0xf0) + 0x10` is written
`(b / 16) * 16 + 0x10` (the byte's high nibble plus one nibble step). -/
def Bcd.wrapping_next (b : Bcd) : Bcd :=
  if b.bcd % 16 < 9 then ⟨b.bcd + 1⟩
  else if b.bcd < 0x99 then ⟨(b.bcd / 16) * 16 + 0x10⟩
  else ⟨0⟩

@[simp] theorem Bcd.mk_bcd (n : Nat) : (Bcd.mk n).bcd = n := rfl

theorem Bcd.TABLE_spec : ∀ v < 100, Bcd.TABLE.getD v 0 = (v / 10) * 16 + v % 10 := by
  decide

theorem Bcd.binary_lt_100 (b : Bcd) (h : b.Valid) : b.binary < 100 := by
  obtain ⟨h1, h2⟩ := h
  unfold Bcd.binary
  omega

theorem Bcd.table_entry_valid (v : Nat) (h : v < 100) :
    Bcd.Valid ⟨Bcd.TABLE.getD v 0⟩ := by
  have := Bcd.TABLE_spec v h
  constructor <;> simp only [this] <;> omega

theorem Bcd.table_entry_binary (v : Nat) (h : v < 100) :
    Bcd.binary ⟨Bcd.TABLE.getD v 0⟩ = v := by
  have := Bcd.TABLE_spec v h
  unfold Bcd.binary
  simp only [this]
  omega

theorem Bcd.table_at_binary (b : Bcd) (h : b.Valid) :
    Bcd.TABLE.getD b.binary 0 = b.bcd := by
  obtain ⟨h1, h2⟩ := h
  have hlt : b.binary < 100 := Bcd.binary_lt_100 b ⟨h1, h2⟩
  have := Bcd.TABLE_spec b.binary hlt
  unfold Bcd.binary at *
  omega

/-- src/msf.rs `Msf`: a BCD minute:second:frame triplet.  The Rust tuple
struct `Msf(Bcd, Bcd, Bcd)` becomes a structure with named fields. -/
structure Msf where
  m : Bcd
  s : Bcd
  f : Bcd
  deriving DecidableEq

@[simp] theorem Msf.mk_m (a b c : Bcd) : (Msf.mk a b c).m = a := rfl

@[simp] theorem Msf.mk_s (a b c : Bcd) : (Msf.mk a b c).s = b := rfl

@[simp] theorem Msf.mk_f (a b c : Bcd) : (Msf.mk a b c).f = c := rfl

/-- The invariant every Rust `Msf` satisfies by construction: the three
components are valid BCD and `Msf::new`'s checks `s < 0x60`, `f < 0x75`
hold. -/
def Msf.Valid (x : Msf) : Prop :=
  x.m.Valid ∧ x.s.Valid ∧ x.f.Valid ∧ x.s.bcd < 0x60 ∧ x.f.bcd < 0x75

instance (x : Msf) : Decidable x.Valid := by unfold Msf.Valid; infer_instance

/-- src/msf.rs `Msf::ZERO`. -/
def Msf.ZERO : Msf := ⟨Bcd.ZERO, Bcd.ZERO, Bcd.ZERO⟩

/-- src/msf.rs `Msf::MAX` (99:59:74). -/
def Msf.MAX : Msf := ⟨⟨0x99⟩, ⟨0x59⟩, ⟨0x74⟩⟩

/-- src/msf.rs `Msf::new`. -/
def Msf.new (m s f : Bcd) : Option Msf :=
  if s.bcd < 0x60 ∧ f.bcd < 0x75 then some ⟨m, s, f⟩ else none

/-- src/msf.rs `Msf::from_bcd`. -/
def Msf.from_bcd (m s f : Nat) : Option Msf :=
  match Bcd.from_bcd m with
  | none => none
  | some bm =>
    match Bcd.from_bcd s with
    | none => none
    | some bs =>
      match Bcd.from_bcd f with
      | none => none
      | some bf => Msf.new bm bs bf

/-- src/msf.rs `Msf::into_bcd`. -/
def Msf.into_bcd (x : Msf) : Bcd × Bcd × Bcd := (x.m, x.s, x.f)

/-- src/msf.rs `Msf::sector_index`. -/
def Msf.sector_index (x : Msf) : Nat :=
  60 * 75 * x.m.binary + 75 * x.s.binary + x.f.binary

/-- src/msf.rs `Msf::from_sector_index` (the `TABLE` lookups inline
`Bcd::TABLE[..]`). -/
def Msf.from_sector_index (si : Nat) : Option Msf :=
  let m := si / (60 * 75)
  if m > 99 then none
  else
    let si2 := si % (60 * 75)
    some ⟨⟨Bcd.TABLE.getD m 0⟩, ⟨Bcd.TABLE.getD (si2 / 75) 0⟩, ⟨Bcd.TABLE.getD (si2 % 75) 0⟩⟩

/-- src/msf.rs `Msf::next`. -/
def Msf.next (x : Msf) : Option Msf :=
  if x.f.bcd < 0x74 then some ⟨x.m, x.s, x.f.wrapping_next⟩
  else if x.s.bcd < 0x59 then some ⟨x.m, x.s.wrapping_next, Bcd.ZERO⟩
  else if x.m.bcd < 0x99 then some ⟨x.m.wrapping_next, Bcd.ZERO, Bcd.ZERO⟩
  else none

/-- src/msf.rs `Msf::checked_add`. -/
def Msf.checked_add (x y : Msf) : Option Msf :=
  Msf.from_sector_index (x.sector_index + y.sector_index)

/-- src/msf.rs `Msf::checked_sub` (`u32::checked_sub` then
`from_sector_index`). -/
def Msf.checked_sub (x y : Msf) : Option Msf :=
  if y.sector_index ≤ x.sector_index then
    Msf.from_sector_index (x.sector_index - y.sector_index)
  else none

/-- src/msf.rs `Msf::as_u32_bcd`: `(m << 16) | (s << 8) | f`.  The three
bytes occupy disjoint bit ranges, so the ORs of shifted bytes are written as
the equal sum `m * 0x10000 + s * 0x100 + f`. -/
def Msf.as_u32_bcd (x : Msf) : Nat :=
  x.m.bcd * 0x10000 + x.s.bcd * 0x100 + x.f.bcd

/-- src/msf.rs `impl Ord for Msf` compares `as_u32_bcd` values; `a < b` is
this decidable proposition. -/
def Msf.lt (a b : Msf) : Prop := a.as_u32_bcd < b.as_u32_bcd

instance (a b : Msf) : Decidable (Msf.lt a b) := by unfold Msf.lt; infer_instance

/-- src/msf.rs `impl Add for Msf`: `checked_add` followed by a panic on
overflow.  The panic is modelled by the junk value `Msf.ZERO`; theorems using
this operation establish that the checked form succeeds. -/
def Msf.addUnwrap (x y : Msf) : Msf := (x.checked_add y).getD Msf.ZERO

theorem Msf.sector_index_lt (x : Msf) (h : x.Valid) : x.sector_index < 450000 := by
  obtain ⟨hm, hs, hf, hs60, hf75⟩ := h
  have h1 : x.m.binary < 100 := Bcd.binary_lt_100 _ hm
  have h2 : x.s.binary < 60 := by
    obtain ⟨_, h2⟩ := hs; unfold Bcd.binary; omega
  have h3 : x.f.binary < 75 := by
    obtain ⟨_, h2⟩ := hf; unfold Bcd.binary; omega
  unfold Msf.sector_index
  omega

theorem Msf.from_sector_index_eq (n : Nat) (h : n < 450000) :
    ∃ x, Msf.from_sector_index n = some x ∧ x.Valid ∧ x.sector_index = n := by
  refine ⟨⟨⟨Bcd.TABLE.getD (n / 4500) 0⟩, ⟨Bcd.TABLE.getD (n % 4500 / 75) 0⟩,
          ⟨Bcd.TABLE.getD (n % 4500 % 75) 0⟩⟩, ?_, ?_, ?_⟩
  · unfold Msf.from_sector_index
    have : ¬ (n / (60 * 75) > 99) := by omega
    simp only [this, if_false]
  · have hm : n / 4500 < 100 := by omega
    have hs : n % 4500 / 75 < 60 := by omega
    have hf : n % 4500 % 75 < 75 := by omega
    refine ⟨Bcd.table_entry_valid _ (by omega), Bcd.table_entry_valid _ (by omega),
            Bcd.table_entry_valid _ (by omega), ?_, ?_⟩
    · have := Bcd.TABLE_spec (n % 4500 / 75) (by omega)
      simp only [this]; omega
    · have := Bcd.TABLE_spec (n % 4500 % 75) (by omega)
      simp only [this]; omega
  · unfold Msf.sector_index
    have e1 := Bcd.table_entry_binary (n / 4500) (by omega)
    have e2 := Bcd.table_entry_binary (n % 4500 / 75) (by omega)
    have e3 := Bcd.table_entry_binary (n % 4500 % 75) (by omega)
    simp only [e1, e2, e3]
    omega

theorem Msf.from_sector_index_none (n : Nat) (h : 450000 ≤ n) :
    Msf.from_sector_index n = none := by
  unfold Msf.from_sector_index
  have : n / (60 * 75) > 99 := by omega
  simp only [this, if_true]

theorem Msf.from_sector_index_self (x : Msf) (h : x.Valid) :
    Msf.from_sector_index x.sector_index = some x := by
  obtain ⟨hm, hs, hf, hs60, hf75⟩ := h
  have h1 : x.m.binary < 100 := Bcd.binary_lt_100 _ hm
  have h2 : x.s.binary < 60 := by
    obtain ⟨_, h2⟩ := hs; unfold Bcd.binary; omega
  have h3 : x.f.binary < 75 := by
    obtain ⟨_, h2⟩ := hf; unfold Bcd.binary; omega
  have hsi : x.sector_index = 4500 * x.m.binary + 75 * x.s.binary + x.f.binary := by
    unfold Msf.sector_index; ring
  have hdiv : x.sector_index / (60 * 75) = x.m.binary := by omega
  have hmod1 : x.sector_index % (60 * 75) / 75 = x.s.binary := by omega
  have hmod2 : x.sector_index % (60 * 75) % 75 = x.f.binary := by omega
  unfold Msf.from_sector_index
  have hngt : ¬ (x.sector_index / (60 * 75) > 99) := by omega
  simp only [hngt, if_false, hdiv, hmod1, hmod2]
  rw [Bcd.table_at_binary x.m hm, Bcd.table_at_binary x.s hs, Bcd.table_at_binary x.f hf]
  have hngt2 : ¬ (x.m.binary > 99) := by omega
  simp only [hngt2, if_false]

theorem Msf.sector_index_inj (a b : Msf) (ha : a.Valid) (hb : b.Valid)
    (h : a.sector_index = b.sector_index) : a = b := by
  have e1 := Msf.from_sector_index_self a ha
  have e2 := Msf.from_sector_index_self b hb
  rw [h] at e1
  rw [e1] at e2
  exact Option.some_injective _ e2

theorem Bcd.wrapping_next_valid (b : Bcd) (h : b.Valid) : b.wrapping_next.Valid := by
  obtain ⟨h1, h2⟩ := h
  unfold Bcd.wrapping_next
  split_ifs <;>
    exact ⟨by simp only [Bcd.mk_bcd]; omega, by simp only [Bcd.mk_bcd]; omega⟩

theorem Bcd.wrapping_next_binary (b : Bcd) (h : b.Valid) (hlt : b.bcd < 0x99) :
    b.wrapping_next.binary = b.binary + 1 := by
  obtain ⟨h1, h2⟩ := h
  unfold Bcd.wrapping_next Bcd.binary
  split_ifs <;> simp only [Bcd.mk_bcd] <;> omega

theorem Bcd.bcd_from_binary (b : Bcd) (h : b.Valid) :
    b.bcd = (b.binary / 10) * 16 + b.binary % 10 := by
  obtain ⟨h1, h2⟩ := h
  unfold Bcd.binary
  omega

theorem Msf.next_eq_some (x : Msf) (h : x.Valid) (hlt : x.sector_index < 449999) :
    ∃ y, x.next = some y ∧ y.Valid ∧ y.sector_index = x.sector_index + 1 := by
  obtain ⟨hm, hs, hf, hs60, hf75⟩ := h
  have hmb := Bcd.binary_lt_100 x.m hm
  have hsb : x.s.binary < 60 := by
    obtain ⟨h1, h2⟩ := hs; unfold Bcd.binary; omega
  have hfb : x.f.binary < 75 := by
    obtain ⟨h1, h2⟩ := hf; unfold Bcd.binary; omega
  unfold Msf.next
  by_cases hc1 : x.f.bcd < 0x74
  · rw [if_pos hc1]
    have hfv := Bcd.wrapping_next_valid x.f hf
    have hfn := Bcd.wrapping_next_binary x.f hf (by omega)
    have hfb2 : x.f.binary < 74 := by
      obtain ⟨h1, h2⟩ := hf; unfold Bcd.binary; omega
    refine ⟨_, rfl, ⟨hm, hs, hfv, hs60, ?_⟩, ?_⟩
    · have := Bcd.bcd_from_binary _ hfv
      simp only [Msf.mk_f] at *
      omega
    · unfold Msf.sector_index
      simp only [Msf.mk_m, Msf.mk_s, Msf.mk_f, hfn]
      omega
  · rw [if_neg hc1]
    by_cases hc2 : x.s.bcd < 0x59
    · rw [if_pos hc2]
      have hsv := Bcd.wrapping_next_valid x.s hs
      have hsn := Bcd.wrapping_next_binary x.s hs (by omega)
      have hsb2 : x.s.binary < 59 := by
        obtain ⟨h1, h2⟩ := hs; unfold Bcd.binary; omega
      have hf74 : x.f.binary = 74 := by
        obtain ⟨h1, h2⟩ := hf; unfold Bcd.binary; omega
      refine ⟨_, rfl, ⟨hm, hsv, ?_, ?_, ?_⟩, ?_⟩
      · simp only [Msf.mk_f]
        exact ⟨by decide, by decide⟩
      · have := Bcd.bcd_from_binary _ hsv
        simp only [Msf.mk_s] at *
        omega
      · simp only [Msf.mk_f]
        decide
      · unfold Msf.sector_index
        simp only [Msf.mk_m, Msf.mk_s, Msf.mk_f, hsn]
        unfold Bcd.ZERO Bcd.binary
        simp only [Bcd.mk_bcd]
        omega
    · rw [if_neg hc2]
      by_cases hc3 : x.m.bcd < 0x99
      · rw [if_pos hc3]
        have hmv := Bcd.wrapping_next_valid x.m hm
        have hmn := Bcd.wrapping_next_binary x.m hm hc3
        have hs59 : x.s.binary = 59 := by
          obtain ⟨h1, h2⟩ := hs; unfold Bcd.binary; omega
        have hf74 : x.f.binary = 74 := by
          obtain ⟨h1, h2⟩ := hf; unfold Bcd.binary; omega
        refine ⟨_, rfl, ⟨?_, ?_, ?_, ?_, ?_⟩, ?_⟩
        · simp only [Msf.mk_m]; exact hmv
        · simp only [Msf.mk_s]; exact ⟨by decide, by decide⟩
        · simp only [Msf.mk_f]; exact ⟨by decide, by decide⟩
        · simp only [Msf.mk_s]; decide
        · simp only [Msf.mk_f]; decide
        · have hz : Bcd.ZERO.binary = 0 := by decide
          unfold Msf.sector_index
          simp only [Msf.mk_m, Msf.mk_s, Msf.mk_f, hmn, hz]
          omega
      · exfalso
        have hm99 : x.m.binary = 99 := by
          obtain ⟨h1, h2⟩ := hm; unfold Bcd.binary; omega
        have hs59 : x.s.binary = 59 := by
          obtain ⟨h1, h2⟩ := hs; unfold Bcd.binary; omega
        have hf74 : x.f.binary = 74 := by
          obtain ⟨h1, h2⟩ := hf; unfold Bcd.binary; omega
        unfold Msf.sector_index at hlt
        omega

theorem Msf.next_eq_none (x : Msf) (h : x.Valid) (hmax : x.sector_index = 449999) :
    x.next = none := by
  obtain ⟨hm, hs, hf, hs60, hf75⟩ := h
  have hmb := Bcd.binary_lt_100 x.m hm
  have hsb : x.s.binary < 60 := by
    obtain ⟨h1, h2⟩ := hs; unfold Bcd.binary; omega
  have hfb : x.f.binary < 75 := by
    obtain ⟨h1, h2⟩ := hf; unfold Bcd.binary; omega
  have e1 : x.m.binary = 99 ∧ x.s.binary = 59 ∧ x.f.binary = 74 := by
    unfold Msf.sector_index at hmax; omega
  have b1 := Bcd.bcd_from_binary x.m hm
  have b2 := Bcd.bcd_from_binary x.s hs
  have b3 := Bcd.bcd_from_binary x.f hf
  unfold Msf.next
  rw [if_neg (by omega), if_neg (by omega), if_neg (by omega)]

theorem Msf.MAX_valid : Msf.MAX.Valid := by decide

theorem Msf.MAX_sector_index : Msf.MAX.sector_index = 449999 := by decide

theorem Msf.ZERO_valid : Msf.ZERO.Valid := by decide

theorem Msf.ZERO_sector_index : Msf.ZERO.sector_index = 0 := by decide

/-- src/disc_position.rs `DiscPosition`. -/
inductive DiscPosition where
  | LeadIn (msf : Msf)
  | Program (msf : Msf)
  deriving DecidableEq

/-- The invariant carried by the inner `Msf` of a `DiscPosition`. -/
def DiscPosition.Valid : DiscPosition → Prop
  | .LeadIn msf => msf.Valid
  | .Program msf => msf.Valid

instance : (p : DiscPosition) → Decidable p.Valid
  | .LeadIn msf => inferInstanceAs (Decidable msf.Valid)
  | .Program msf => inferInstanceAs (Decidable msf.Valid)

/-- src/disc_position.rs `DiscPosition::next`. -/
def DiscPosition.next (p : DiscPosition) : Option DiscPosition :=
  match p with
  | .LeadIn msf =>
    match msf.next with
    | some msf => some (.LeadIn msf)
    | none => some (.Program Msf.ZERO)
  | .Program msf =>
    match msf.next with
    | some msf => some (.Program msf)
    | none => none

/-- src/disc_position.rs `DiscPosition::checked_sub`. -/
def DiscPosition.checked_sub (p : DiscPosition) (rhs : Msf) : Option DiscPosition :=
  match p with
  | .LeadIn msf => (msf.checked_sub rhs).map .LeadIn
  | .Program msf =>
    match msf.checked_sub rhs with
    | some msf => some (.Program msf)
    | none =>
      ((((rhs.checked_sub msf).bind (fun off => Msf.MAX.checked_sub off)).bind
          (fun msf => msf.next)).map .LeadIn)

/-- src/disc_position.rs `DiscPosition::checked_add`. -/
def DiscPosition.checked_add (p : DiscPosition) (rhs : Msf) : Option DiscPosition :=
  match p with
  | .Program msf => (msf.checked_add rhs).map .Program
  | .LeadIn msf =>
    match msf.checked_add rhs with
    | some msf => some (.LeadIn msf)
    | none =>
      (((Msf.MAX.checked_sub msf).bind (fun msf => msf.next)).bind
          (fun off => rhs.checked_sub off)).map .Program

theorem Msf.from_sector_index_inv (n : Nat) (z : Msf)
    (h : Msf.from_sector_index n = some z) :
    z.Valid ∧ z.sector_index = n ∧ n < 450000 := by
  by_cases hn : n < 450000
  · obtain ⟨x, e, v, s⟩ := Msf.from_sector_index_eq n hn
    rw [e] at h
    obtain rfl := Option.some_injective _ h
    exact ⟨v, s, hn⟩
  · rw [Msf.from_sector_index_none n (by omega)] at h
    cases h

theorem Msf.checked_sub_pos (x y : Msf) (h : y.sector_index ≤ x.sector_index) :
    x.checked_sub y = Msf.from_sector_index (x.sector_index - y.sector_index) := by
  unfold Msf.checked_sub
  rw [if_pos h]

theorem Msf.checked_sub_neg (x y : Msf) (h : x.sector_index < y.sector_index) :
    x.checked_sub y = none := by
  unfold Msf.checked_sub
  rw [if_neg (by omega)]

/-- C6: `DiscPosition` arithmetic traverses the lead-in/program boundary.
Subtracting an MSF `m` larger than `x` from `Program(x)` lands in the lead-in,
continuing the count-down from `LeadIn(Msf::MAX)` (the result `y` satisfies
`y + (m - x) = 450000` sectors, i.e. `Program(00:00:00) - 00:00:01 =
LeadIn(99:59:74)`); adding past `LeadIn(99:59:74)` continues into the program
area starting at `Program(00:00:00)`; and whenever `dp.checked_add(m)` is
defined, `(dp + m) - m == dp`. -/
theorem c6_disc_position_boundary_arith :
    (∀ x m : Msf, x.Valid → m.Valid → x.sector_index < m.sector_index →
      ∃ y, (DiscPosition.Program x).checked_sub m = some (.LeadIn y) ∧ y.Valid ∧
        y.sector_index + (m.sector_index - x.sector_index) = 450000) ∧
    ((DiscPosition.Program Msf.ZERO).checked_sub ⟨Bcd.ZERO, Bcd.ZERO, Bcd.ONE⟩ =
      some (.LeadIn Msf.MAX)) ∧
    (∀ y m : Msf, y.Valid → m.Valid → 449999 < y.sector_index + m.sector_index →
      ∃ z, (DiscPosition.LeadIn y).checked_add m = some (.Program z) ∧ z.Valid ∧
        z.sector_index + 450000 = y.sector_index + m.sector_index) ∧
    ((DiscPosition.LeadIn Msf.MAX).checked_add ⟨Bcd.ZERO, Bcd.ZERO, Bcd.ONE⟩ =
      some (.Program Msf.ZERO)) ∧
    (∀ (dp : DiscPosition) (m : Msf), dp.Valid → m.Valid →
      ∀ r, dp.checked_add m = some r → r.checked_sub m = some dp) := by
  have hmaxsi : Msf.MAX.sector_index = 449999 := Msf.MAX_sector_index
  refine ⟨?_, by decide, ?_, by decide, ?_⟩
  · intro x m hx hm hlt
    have hxs := Msf.sector_index_lt x hx
    have hms := Msf.sector_index_lt m hm
    obtain ⟨off, hoff, hoffv, hoffsi⟩ :=
      Msf.from_sector_index_eq (m.sector_index - x.sector_index) (by omega)
    obtain ⟨w, hw, hwv, hwsi⟩ :=
      Msf.from_sector_index_eq (Msf.MAX.sector_index - off.sector_index) (by omega)
    obtain ⟨y, hy, hyv, hysi⟩ := Msf.next_eq_some w hwv (by omega)
    refine ⟨y, ?_, hyv, by omega⟩
    simp only [DiscPosition.checked_sub, Msf.checked_sub_neg x m hlt,
      Msf.checked_sub_pos m x (by omega : x.sector_index ≤ m.sector_index), hoff,
      Option.some_bind, Msf.checked_sub_pos Msf.MAX off (by omega), hw, hy,
      Option.map_some']
  · intro y m hy hm hlt
    have hys := Msf.sector_index_lt y hy
    have hms := Msf.sector_index_lt m hm
    obtain ⟨u, hu, huv, husi⟩ :=
      Msf.from_sector_index_eq (Msf.MAX.sector_index - y.sector_index) (by omega)
    obtain ⟨v, hv, hvv, hvsi⟩ := Msf.next_eq_some u huv (by omega)
    obtain ⟨z, hz, hzv, hzsi⟩ :=
      Msf.from_sector_index_eq (m.sector_index - v.sector_index) (by omega)
    refine ⟨z, ?_, hzv, by omega⟩
    have hover : Msf.checked_add y m = none := by
      unfold Msf.checked_add
      exact Msf.from_sector_index_none _ (by omega)
    simp only [DiscPosition.checked_add, hover,
      Msf.checked_sub_pos Msf.MAX y (by omega), hu, Option.some_bind, hv,
      Msf.checked_sub_pos m v (by omega), hz, Option.map_some']
  · intro dp m hdp hm r hr
    have hms := Msf.sector_index_lt m hm
    cases dp with
    | Program x =>
      have hx : x.Valid := hdp
      simp only [DiscPosition.checked_add, Msf.checked_add, Option.map_eq_some'] at hr
      obtain ⟨z, hz, rfl⟩ := hr
      obtain ⟨hzv, hzsi, hzb⟩ := Msf.from_sector_index_inv _ z hz
      have hsub : z.sector_index - m.sector_index = x.sector_index := by omega
      simp only [DiscPosition.checked_sub, Msf.checked_sub_pos z m (by omega), hsub,
        Msf.from_sector_index_self x hx]
    | LeadIn y =>
      have hy : y.Valid := hdp
      have hys := Msf.sector_index_lt y hy
      by_cases hcase : 449999 < y.sector_index + m.sector_index
      · have hover : Msf.checked_add y m = none := by
          unfold Msf.checked_add
          exact Msf.from_sector_index_none _ (by omega)
        obtain ⟨u, hu, huv, husi⟩ :=
          Msf.from_sector_index_eq (Msf.MAX.sector_index - y.sector_index) (by omega)
        obtain ⟨v, hv, hvv, hvsi⟩ := Msf.next_eq_some u huv (by omega)
        simp only [DiscPosition.checked_add, hover,
          Msf.checked_sub_pos Msf.MAX y (by omega), hu, Option.some_bind, hv,
          Msf.checked_sub_pos m v (by omega), Option.map_eq_some'] at hr
        obtain ⟨z, hz, rfl⟩ := hr
        obtain ⟨hzv, hzsi, hzb⟩ := Msf.from_sector_index_inv _ z hz
        obtain ⟨off2, hoff2, hoff2v, hoff2si⟩ :=
          Msf.from_sector_index_eq (m.sector_index - z.sector_index) (by omega)
        obtain ⟨w2, hw2, hw2v, hw2si⟩ :=
          Msf.from_sector_index_eq (Msf.MAX.sector_index - off2.sector_index) (by omega)
        obtain ⟨y2, hy2, hy2v, hy2si⟩ := Msf.next_eq_some w2 hw2v (by omega)
        have hy2y : y2 = y := Msf.sector_index_inj y2 y hy2v hy (by omega)
        rw [hy2y] at hy2
        simp only [DiscPosition.checked_sub, Msf.checked_sub_neg z m (by omega),
          Msf.checked_sub_pos m z (by omega), hoff2, Option.some_bind,
          Msf.checked_sub_pos Msf.MAX off2 (by omega), hw2, hy2, Option.map_some']
      · obtain ⟨w, hwe, hwv, hwsi⟩ :=
          Msf.from_sector_index_eq (y.sector_index + m.sector_index) (by omega)
        have hadd : Msf.checked_add y m = some w := by
          unfold Msf.checked_add
          exact hwe
        simp only [DiscPosition.checked_add, hadd, Option.some_inj] at hr
        obtain rfl := hr.symm
        have hsub : w.sector_index - m.sector_index = y.sector_index := by omega
        simp only [DiscPosition.checked_sub, Msf.checked_sub_pos w m (by omega), hsub,
          Msf.from_sector_index_self y hy, Option.map_some']

/-- Witness for C6: the universally quantified parts evaluated at
`Program(00:00:00) - 00:02:00`, `LeadIn(99:59:00) + 00:02:00` and
`Program(00:00:01) + 00:00:01`. -/
theorem c6_disc_position_boundary_arith_witness :
    (∃ y, (DiscPosition.Program Msf.ZERO).checked_sub ⟨Bcd.ZERO, ⟨0x02⟩, Bcd.ZERO⟩ =
        some (.LeadIn y) ∧ y.Valid ∧
        y.sector_index +
          ((Msf.mk Bcd.ZERO ⟨0x02⟩ Bcd.ZERO).sector_index - Msf.ZERO.sector_index) = 450000) ∧
    (∃ z, (DiscPosition.LeadIn ⟨⟨0x99⟩, ⟨0x59⟩, Bcd.ZERO⟩).checked_add
        ⟨Bcd.ZERO, ⟨0x02⟩, Bcd.ZERO⟩ = some (.Program z) ∧ z.Valid ∧
        z.sector_index + 450000 =
          (Msf.mk ⟨0x99⟩ ⟨0x59⟩ Bcd.ZERO).sector_index +
            (Msf.mk Bcd.ZERO ⟨0x02⟩ Bcd.ZERO).sector_index) ∧
    (∀ r, (DiscPosition.Program ⟨Bcd.ZERO, Bcd.ZERO, Bcd.ONE⟩).checked_add
        ⟨Bcd.ZERO, Bcd.ZERO, Bcd.ONE⟩ = some r →
      r.checked_sub ⟨Bcd.ZERO, Bcd.ZERO, Bcd.ONE⟩ =
        some (DiscPosition.Program ⟨Bcd.ZERO, Bcd.ZERO, Bcd.ONE⟩)) := by
  obtain ⟨h1, _, h3, _, h5⟩ := c6_disc_position_boundary_arith
  exact ⟨h1 _ _ (by decide) (by decide) (by decide),
         h3 _ _ (by decide) (by decide) (by decide),
         h5 _ _ (by decide) (by decide)⟩

/-- src/lib.rs `SessionFormat`. -/
inductive SessionFormat where
  | CdDaCdRom
  | Cdi
  | CdXa
  deriving DecidableEq

/-- src/sector.rs `CdRomMode`. -/
inductive CdRomMode where
  | Empty
  | Mode1
  | Mode2
  deriving DecidableEq

/-- src/sector.rs `CdRomMode as u8` (the enum discriminants 0, 1, 2). -/
def CdRomMode.toByte : CdRomMode → Nat
  | .Empty => 0
  | .Mode1 => 1
  | .Mode2 => 2

/-- src/lib.rs `TrackFormat`. -/
inductive TrackFormat where
  | Audio
  | CdG
  | Mode1
  | Mode2Xa
  | Mode2CdI
  deriving DecidableEq

/-- src/lib.rs `TrackFormat::cdrom_mode`. -/
def TrackFormat.cdrom_mode : TrackFormat → Option CdRomMode
  | .Mode1 => some .Mode1
  | .Mode2Xa => some .Mode2
  | .Mode2CdI => some .Mode2
  | _ => none

/-- src/lib.rs `TrackFormat::is_cdrom`. -/
def TrackFormat.is_cdrom (f : TrackFormat) : Bool := f.cdrom_mode.isSome

/-- src/lib.rs `TrackFormat::is_audio`. -/
def TrackFormat.is_audio (f : TrackFormat) : Bool := f == TrackFormat.Audio

/-- Modelled from the spec: `crc::crc16` lives in src/crc.rs, which is
declared by lib.rs (`pub mod crc`) but is not present under src/.  Spec §4.2
and §6 describe it as CRC-16 (CCITT polynomial, big-endian output) over
bytes 0..10 of a Q frame.  One bit step of the msb-first CRC-16/CCITT with
polynomial 0x1021. -/
def crc16_bit (c : Nat) : Nat :=
  if c &&& 0x8000 ≠ 0 then ((c <<< 1) ^^^ 0x1021) % 65536 else (c <<< 1) % 65536

/-- Modelled from the spec: one byte step of CRC-16/CCITT (see `crc16_bit`). -/
def crc16_byte (c b : Nat) : Nat := crc16_bit^[8] (c ^^^ (b <<< 8))

/-- Modelled from the spec: `crc::crc16`, CRC-16/CCITT over a byte string,
zero initial value, big-endian 16-bit result.  Every claim proved about it
depends only on it being a fixed function of the input bytes. -/
def crc16 (bytes : List Nat) : Nat := bytes.foldl crc16_byte 0

/-- src/subchannel.rs `AdrControl` (a newtype over the raw `u8`). -/
structure AdrControl where
  byte : Nat
  deriving DecidableEq

/-- src/subchannel.rs `AdrControl::MODE1_AUDIO` (renamed). -/
def AdrControl.MODE1_Audio : AdrControl := ⟨0x01⟩

/-- src/subchannel.rs `AdrControl::MODE1_DATA`. -/
def AdrControl.MODE1_DATA : AdrControl := ⟨0x41⟩

/-- src/subchannel.rs `AdrControl::is_data`. -/
def AdrControl.is_data (a : AdrControl) : Bool := a.byte &&& 0x40 != 0

/-- src/subchannel.rs `AdrControl::is_audio`. -/
def AdrControl.is_audio (a : AdrControl) : Bool := ! a.is_data

/-- src/subchannel.rs `AdrControl::mode`. -/
def AdrControl.mode (a : AdrControl) : Nat := a.byte &&& 0xf

/-- src/subchannel.rs `QData`. -/
inductive QData where
  | Mode1 (track index : Bcd) (track_msf disc_msf : Msf)
  | Mode1LeadOut (lead_out_msf disc_msf : Msf)
  | Mode1Toc (track : Bcd) (index1_msf lead_in_msf : Msf)
  | Mode1TocFirstTrack (first_track : Bcd) (session_format : SessionFormat) (lead_in_msf : Msf)
  | Mode1TocLastTrack (last_track : Bcd) (lead_in_msf : Msf)
  | Mode1TocLeadOut (lead_out_start lead_in_msf : Msf)
  deriving DecidableEq

/-- src/subchannel.rs `QData::is_lead_in`. -/
def QData.is_lead_in : QData → Bool
  | .Mode1 track _ _ _ => track.bcd == 0x00
  | .Mode1LeadOut _ _ => false
  | .Mode1Toc _ _ _ => true
  | .Mode1TocFirstTrack _ _ _ => true
  | .Mode1TocLastTrack _ _ => true
  | .Mode1TocLeadOut _ _ => true

/-- src/subchannel.rs `QData::is_lead_out`. -/
def QData.is_lead_out : QData → Bool
  | .Mode1LeadOut _ _ => true
  | _ => false

/-- src/subchannel.rs `QData::is_pregap`. -/
def QData.is_pregap : QData → Bool
  | .Mode1 _ index _ _ => index.bcd == 0x00
  | _ => false

/-- src/subchannel.rs `QData::amsf`. -/
def QData.amsf : QData → Msf
  | .Mode1 _ _ _ disc_msf => disc_msf
  | .Mode1LeadOut _ disc_msf => disc_msf
  | .Mode1Toc _ _ lead_in_msf => lead_in_msf
  | .Mode1TocFirstTrack _ _ lead_in_msf => lead_in_msf
  | .Mode1TocLastTrack _ lead_in_msf => lead_in_msf
  | .Mode1TocLeadOut _ lead_in_msf => lead_in_msf

/-- src/subchannel.rs `QData::from_raw`, on the twelve bytes of the Rust
`[u8; 12]` argument (a shorter or longer list is not a `[u8; 12]` and is
mapped to an arbitrary error). -/
def QData.from_raw (raw : List Nat) : Except CdError QData :=
  match raw with
  | [r0, r1, r2, r3, r4, r5, r6, r7, r8, r9, r10, r11] =>
    let crc := crc16 [r0, r1, r2, r3, r4, r5, r6, r7, r8, r9]
    if ¬ (crc / 256 = r10 ∧ crc % 256 = r11) then .error .InvalidSubQCRC
    else if (AdrControl.mk r0).mode ≠ 1 then .error .Unsupported
    else
      match Bcd.from_bcd r3 with
      | none => .error .Unsupported
      | some min =>
        match Bcd.from_bcd r4 with
        | none => .error .Unsupported
        | some sec =>
          match Bcd.from_bcd r5 with
          | none => .error .Unsupported
          | some frac =>
            match Msf.new min sec frac with
            | none => .error .Unsupported
            | some msf =>
              if r6 ≠ 0 then .error .Unsupported
              else
                match Bcd.from_bcd r7 with
                | none => .error .Unsupported
                | some ap_min =>
                  match Bcd.from_bcd r8 with
                  | none => .error .Unsupported
                  | some ap_sec =>
                    match Bcd.from_bcd r9 with
                    | none => .error .Unsupported
                    | some ap_frac =>
                      match Msf.new ap_min ap_sec ap_frac with
                      | none => .error .Unsupported
                      | some ap_msf =>
                        if r1 = 0x00 then
                          if r2 = 0xa0 then
                            if ap_sec.bcd = 0x00 then
                              if ap_frac.bcd ≠ 0 then .error .Unsupported
                              else .ok (.Mode1TocFirstTrack ap_min .CdDaCdRom msf)
                            else if ap_sec.bcd = 0x10 then
                              if ap_frac.bcd ≠ 0 then .error .Unsupported
                              else .ok (.Mode1TocFirstTrack ap_min .Cdi msf)
                            else if ap_sec.bcd = 0x20 then
                              if ap_frac.bcd ≠ 0 then .error .Unsupported
                              else .ok (.Mode1TocFirstTrack ap_min .CdXa msf)
                            else .error .Unsupported
                          else if r2 = 0xa1 then
                            if ap_sec.bcd ≠ 0 ∨ ap_frac.bcd ≠ 0 then .error .Unsupported
                            else .ok (.Mode1TocLastTrack ap_min msf)
                          else if r2 = 0xa2 then .ok (.Mode1TocLeadOut ap_msf msf)
                          else
                            match Bcd.from_bcd r2 with
                            | none => .error .Unsupported
                            | some ptrack => .ok (.Mode1Toc ptrack ap_msf msf)
                        else if r1 = 0xaa then
                          if r2 ≠ 0x01 then .error .Unsupported
                          else .ok (.Mode1LeadOut msf ap_msf)
                        else
                          match Bcd.from_bcd r1 with
                          | none => .error .Unsupported
                          | some track =>
                            match Bcd.from_bcd r2 with
                            | none => .error .Unsupported
                            | some index => .ok (.Mode1 track index msf ap_msf)
  | _ => .error .Unsupported

/-- src/subchannel.rs `QData::to_raw`.  The Rust code fills bytes 0..10 of a
zeroed 12-byte buffer according to the variant, then computes the CRC-16 of
those ten bytes and stores it big-endian at bytes 10..12; here the ten data
bytes are built as a list (unwritten positions keep the zero fill) and the two
CRC bytes are appended. -/
def QData.to_raw (d : QData) (adr_ctrl : AdrControl) : List Nat :=
  let base : List Nat :=
    match d with
    | .Mode1 track index track_msf disc_msf =>
      [adr_ctrl.byte, track.bcd, index.bcd,
       track_msf.m.bcd, track_msf.s.bcd, track_msf.f.bcd, 0,
       disc_msf.m.bcd, disc_msf.s.bcd, disc_msf.f.bcd]
    | .Mode1LeadOut lead_out_msf disc_msf =>
      [adr_ctrl.byte, 0xaa, 0x01,
       lead_out_msf.m.bcd, lead_out_msf.s.bcd, lead_out_msf.f.bcd, 0,
       disc_msf.m.bcd, disc_msf.s.bcd, disc_msf.f.bcd]
    | .Mode1Toc track index1_msf lead_in_msf =>
      [adr_ctrl.byte, 0, track.bcd,
       lead_in_msf.m.bcd, lead_in_msf.s.bcd, lead_in_msf.f.bcd, 0,
       index1_msf.m.bcd, index1_msf.s.bcd, index1_msf.f.bcd]
    | .Mode1TocFirstTrack first_track session_format lead_in_msf =>
      [adr_ctrl.byte, 0, 0xa0,
       lead_in_msf.m.bcd, lead_in_msf.s.bcd, lead_in_msf.f.bcd, 0,
       first_track.bcd,
       match session_format with
       | .CdDaCdRom => 0
       | .Cdi => 0x10
       | .CdXa => 0x20,
       0]
    | .Mode1TocLastTrack last_track lead_in_msf =>
      [adr_ctrl.byte, 0, 0xa1,
       lead_in_msf.m.bcd, lead_in_msf.s.bcd, lead_in_msf.f.bcd, 0,
       last_track.bcd, 0, 0]
    | .Mode1TocLeadOut lead_out_start lead_in_msf =>
      [adr_ctrl.byte, 0, 0xa2,
       lead_in_msf.m.bcd, lead_in_msf.s.bcd, lead_in_msf.f.bcd, 0,
       lead_out_start.m.bcd, lead_out_start.s.bcd, lead_out_start.f.bcd]
  base ++ [crc16 base / 256, crc16 base % 256]

/-- src/subchannel.rs `Q`. -/
structure Q where
  data : QData
  adr_control : AdrControl
  deriving DecidableEq

/-- src/subchannel.rs `Q::from_qdata`. -/
def Q.from_qdata (data : QData) (format : TrackFormat) : Q :=
  { data, adr_control := if format.is_audio then .MODE1_Audio else .MODE1_DATA }

/-- src/subchannel.rs `Q::from_raw` (`raw.headD 0` is `raw[0]`, defined
whenever `QData::from_raw` succeeds). -/
def Q.from_raw (raw : List Nat) : Except CdError Q :=
  match QData.from_raw raw with
  | .error e => .error e
  | .ok data => .ok ⟨data, ⟨raw.headD 0⟩⟩

/-- src/subchannel.rs `Q::to_raw`. -/
def Q.to_raw (q : Q) : List Nat := q.data.to_raw q.adr_control

/-- src/subchannel.rs `Q::is_data`. -/
def Q.is_data (q : Q) : Bool := q.adr_control.is_data

/-- src/subchannel.rs `Q::is_audio`. -/
def Q.is_audio (q : Q) : Bool := q.adr_control.is_audio

/-- src/subchannel.rs `Q::amsf`. -/
def Q.amsf (q : Q) : Msf := q.data.amsf

/-- src/subchannel.rs `Q::is_lead_in`. -/
def Q.is_lead_in (q : Q) : Bool := q.data.is_lead_in

/-- src/subchannel.rs `Q::is_lead_out`. -/
def Q.is_lead_out (q : Q) : Bool := q.data.is_lead_out

/-- src/subchannel.rs `Q::is_pregap`. -/
def Q.is_pregap (q : Q) : Bool := q.data.is_pregap

theorem Bcd.from_bcd_eq_some {b : Nat} {x : Bcd} :
    Bcd.from_bcd b = some x ↔ (b ≤ 0x99 ∧ b % 16 ≤ 9) ∧ x = ⟨b⟩ := by
  unfold Bcd.from_bcd
  split_ifs with hc
  · constructor
    · intro h
      exact ⟨hc, (Option.some_injective _ h).symm⟩
    · rintro ⟨_, rfl⟩
      rfl
  · constructor
    · intro h
      cases h
    · rintro ⟨hc2, _⟩
      exact absurd hc2 hc

theorem Msf.new_eq_some {m s f : Bcd} {x : Msf} :
    Msf.new m s f = some x ↔ (s.bcd < 0x60 ∧ f.bcd < 0x75) ∧ x = ⟨m, s, f⟩ := by
  unfold Msf.new
  split_ifs with hc
  · constructor
    · intro h
      exact ⟨hc, (Option.some_injective _ h).symm⟩
    · rintro ⟨_, rfl⟩
      rfl
  · constructor
    · intro h
      cases h
    · rintro ⟨hc2, _⟩
      exact absurd hc2 hc

set_option maxHeartbeats 3200000 in
set_option maxRecDepth 4000 in
/-- C5: `Q::to_raw` is the exact inverse of `Q::from_raw` on the domain where
`from_raw` succeeds: for every 12-byte frame accepted by `from_raw` (any
`QData` variant), serialising the parsed `Q` reproduces the input bytes,
including the recomputed big-endian CRC-16 over bytes 0..10. -/
theorem c5_q_from_raw_to_raw_roundtrip (raw : List Nat) (q : Q)
    (h : Q.from_raw raw = .ok q) : q.to_raw = raw := by
  unfold Q.from_raw at h
  rcases hd : QData.from_raw raw with e | data
  · rw [hd] at h
    cases h
  · rw [hd] at h
    injection h with h
    subst h
    rcases raw with _ | ⟨r0, _ | ⟨r1, _ | ⟨r2, _ | ⟨r3, _ | ⟨r4, _ | ⟨r5, _ | ⟨r6,
      _ | ⟨r7, _ | ⟨r8, _ | ⟨r9, _ | ⟨r10, _ | ⟨r11, _ | ⟨r12, rest⟩⟩⟩⟩⟩⟩⟩⟩⟩⟩⟩⟩⟩
    all_goals simp only [QData.from_raw] at hd
    all_goals try (exact Except.noConfusion hd)
    repeat' (split at hd; all_goals try (exact Except.noConfusion hd))
    all_goals injection hd with hd
    all_goals subst hd
    all_goals
      simp_all [Q.to_raw, QData.to_raw, Bcd.from_bcd_eq_some, Msf.new_eq_some]

set_option maxRecDepth 10000 in
/-- Witness for C5: the round trip evaluated on the serialisation of a
concrete program-area `Q` frame (track 01, index 01, disc MSF 00:02:00,
ADR/CONTROL 0x41). -/
theorem c5_q_from_raw_to_raw_roundtrip_witness :
    Q.from_raw ((Q.mk (QData.Mode1 ⟨0x01⟩ ⟨0x01⟩ Msf.ZERO ⟨⟨0x00⟩, ⟨0x02⟩, ⟨0x00⟩⟩)
        ⟨0x41⟩).to_raw) =
      .ok (Q.mk (QData.Mode1 ⟨0x01⟩ ⟨0x01⟩ Msf.ZERO ⟨⟨0x00⟩, ⟨0x02⟩, ⟨0x00⟩⟩) ⟨0x41⟩) ∧
    (Q.mk (QData.Mode1 ⟨0x01⟩ ⟨0x01⟩ Msf.ZERO ⟨⟨0x00⟩, ⟨0x02⟩, ⟨0x00⟩⟩) ⟨0x41⟩).to_raw =
      (Q.mk (QData.Mode1 ⟨0x01⟩ ⟨0x01⟩ Msf.ZERO ⟨⟨0x00⟩, ⟨0x02⟩, ⟨0x00⟩⟩) ⟨0x41⟩).to_raw :=
  ⟨by decide, c5_q_from_raw_to_raw_roundtrip _ _ (by decide)⟩

/-- The 2352-byte sector buffer, embedded as a function from byte position to
byte value (only positions 0..2352 are ever read). -/
def SectorData : Type := Nat → Nat

/-- A single Rust store `data[i] = v`. -/
def upd (d : SectorData) (i v : Nat) : SectorData := fun j => if j = i then v else d j

/-- A Rust loop storing `v` at every position in `lo..hi` (the stores hit
pairwise distinct positions, so the loop order is immaterial). -/
def setRange (d : SectorData) (lo hi v : Nat) : SectorData :=
  fun j => if lo ≤ j ∧ j < hi then v else d j

/-- The bytes `d[lo..hi]` as a list (the argument fed to the CRC functions). -/
def extract (d : SectorData) (lo hi : Nat) : List Nat :=
  (List.range (hi - lo)).map (fun k => d (lo + k))

/-- The four stores of `u32::to_le_bytes` at `pos..pos+4`. -/
def write_le32 (d : SectorData) (pos v : Nat) : SectorData :=
  upd (upd (upd (upd d pos (v % 256)) (pos + 1) (v / 256 % 256))
    (pos + 2) (v / 65536 % 256)) (pos + 3) (v / 16777216 % 256)

/-- `u32::from_le_bytes` on `d[pos..pos+4]`. -/
def read_le32 (d : SectorData) (pos : Nat) : Nat :=
  d pos + 256 * d (pos + 1) + 65536 * d (pos + 2) + 16777216 * d (pos + 3)

/-- Modelled from the spec: `crc::crc32` lives in src/crc.rs, which is
declared by lib.rs (`pub mod crc`) but is not present under src/.  Spec §4.2
describes it as the CRC-32 used for the EDC with little-endian output; this
is one bit step of the lsb-first CD EDC polynomial (reflected form
0xD8018001).  Every claim proved about `crc32` depends only on it being a
fixed function of the input bytes. -/
def crc32_bit (c : Nat) : Nat :=
  if c &&& 1 ≠ 0 then (c >>> 1) ^^^ 0xD8018001 else c >>> 1

/-- Modelled from the spec: one byte step of the EDC CRC-32 (see
`crc32_bit`). -/
def crc32_byte (c b : Nat) : Nat := crc32_bit^[8] ((c ^^^ b) % 4294967296)

/-- Modelled from the spec: `crc::crc32` over a byte string, zero initial
value, 32-bit result. -/
def crc32 (bytes : List Nat) : Nat := bytes.foldl crc32_byte 0

/-- Modelled from the spec: `ecc::compute_ecc` lives in src/ecc.rs, which is
used by sector.rs (`use crate::ecc::compute_ecc`) but is not present under
src/.  Spec §4.2 specifies only that it "overwrites the P/Q parity regions in
place" — the ECC bytes at 2076..2352 of the sector (positions 2064..2340 of
the `[u8; 2340]` slice starting at byte 12) — using the remaining bytes as
source material; the Reed-Solomon parity values themselves are given no
computable definition in the spec, and no claim depends on them, so they are
modelled as zero.  Only the overwritten region matters for the proofs. -/
def compute_ecc (d : SectorData) : SectorData := setRange d 2076 2352 0

/-- src/sector.rs `Sector`. -/
structure Sector where
  data : SectorData
  q : Q
  format : TrackFormat

/-- src/sector.rs `Sector::uninitialized`. -/
def Sector.uninitialized (q : Q) (format : TrackFormat) : Except CdError Sector :=
  let fmt_ok :=
    match format with
    | .Audio => q.is_audio
    | _ => q.is_data
  if ! fmt_ok then .error .BadFormat
  else .ok { data := fun _ => 0, q, format }

/-- src/sector.rs `Sector::write_headers`.  Mirrors the store sequence of the
Rust code: `data[0] = 0`, `data[i] = 0xff` for `i in 1..11`, `data[12] = 0`
(sic — the source stores the closing sync byte at index 12, not 11, and the
store is immediately overwritten by the minute byte), then the BCD address at
12..15, the mode byte at 15, and the XA/CDi submode defaulting guarded by
`data[18] == 0 && data[19] == 0` (sic — the source tests byte 19, not the
second submode copy at byte 22). -/
def Sector.write_headers (s : Sector) : Sector :=
  match s.format.cdrom_mode with
  | none => s
  | some mode =>
    let d0 := upd s.data 0 0
    let d1 := setRange d0 1 11 0xff
    let d2 := upd d1 12 0
    let mByte :=
      if s.q.is_lead_in then 0xa0 ||| (s.q.amsf.into_bcd.1.bcd &&& 0xf)
      else s.q.amsf.into_bcd.1.bcd
    let d3 := upd d2 12 mByte
    let d4 := upd d3 13 s.q.amsf.into_bcd.2.1.bcd
    let d5 := upd d4 14 s.q.amsf.into_bcd.2.2.bcd
    let d6 := upd d5 15 mode.toByte
    if (s.format = .Mode2Xa ∨ s.format = .Mode2CdI) ∧ d6 18 = 0 ∧ d6 19 = 0 then
      let submode :=
        if s.q.is_lead_in || s.q.is_lead_out || s.q.is_pregap then 0x28 else 0x08
      { s with data := upd (upd d6 18 submode) 22 submode }
    else
      { s with data := d6 }

/-- src/sector.rs `Sector::write_edc_ecc`.  `lib.rs`'s `TrackFormat` also has
a `CdG` constructor that the matches in sector.rs do not name; it is grouped
with `Audio` (no EDC/ECC) here. -/
def Sector.write_edc_ecc (s : Sector) : Sector :=
  match s.format with
  | .Audio | .CdG => s
  | .Mode1 =>
    let crc := crc32 (extract s.data 0 2064)
    let d := write_le32 s.data 2064 crc
    let d2 := setRange d 2068 2076 0
    { s with data := compute_ecc d2 }
  | .Mode2Xa | .Mode2CdI =>
    if s.data 18 &&& (1 <<< 5) = 0 then
      -- XaForm::Form1
      let crc := crc32 (extract s.data 16 2072)
      let d := write_le32 s.data 2072 crc
      let tmp12 := d 12
      let tmp13 := d 13
      let tmp14 := d 14
      let tmp15 := d 15
      let dz := upd (upd (upd (upd d 12 0) 13 0) 14 0) 15 0
      let de := compute_ecc dz
      { s with data := upd (upd (upd (upd de 12 tmp12) 13 tmp13) 14 tmp14) 15 tmp15 }
    else
      -- XaForm::Form2
      let crc := crc32 (extract s.data 16 2348)
      { s with data := write_le32 s.data 2348 crc }

/-- src/sector.rs `Sector::edc_valid` (`CdG` grouped with `Audio` as in
`write_edc_ecc`). -/
def Sector.edc_valid (s : Sector) : Bool :=
  match s.format with
  | .Audio | .CdG => true
  | .Mode1 =>
    let crc := crc32 (extract s.data 0 2064)
    let expected := read_le32 s.data 2064
    expected == crc
  | .Mode2Xa | .Mode2CdI =>
    if s.data 18 &&& (1 <<< 5) = 0 then
      -- XaForm::Form1
      let crc := crc32 (extract s.data 16 2072)
      let expected := read_le32 s.data 2072
      expected == crc
    else
      -- XaForm::Form2
      let crc := crc32 (extract s.data 16 2348)
      let expected := read_le32 s.data 2348
      expected == crc || expected == 0

/-- src/sector.rs `Sector::empty`. -/
def Sector.empty (q : Q) (format : TrackFormat) : Except CdError Sector :=
  match Sector.uninitialized q format with
  | .error e => .error e
  | .ok s => .ok ((s.write_headers).write_edc_ecc)

theorem crc32_bit_lt (c : Nat) (h : c < 4294967296) : crc32_bit c < 4294967296 := by
  have hs : c >>> 1 ≤ c := by
    rw [Nat.shiftRight_eq_div_pow]
    exact Nat.div_le_self c (2 ^ 1)
  unfold crc32_bit
  split_ifs
  · have h1 : c >>> 1 < 2 ^ 32 := by omega
    have h2 : (0xD8018001 : Nat) < 2 ^ 32 := by norm_num
    have h3 := Nat.xor_lt_two_pow h1 h2
    omega
  · omega

theorem crc32_byte_lt (c b : Nat) : crc32_byte c b < 4294967296 := by
  have key : ∀ n x, x < 4294967296 → crc32_bit^[n] x < 4294967296 := by
    intro n
    induction n with
    | zero => intro x hx; simpa using hx
    | succ n ih =>
      intro x hx
      rw [Function.iterate_succ_apply]
      exact ih _ (crc32_bit_lt x hx)
  exact key 8 _ (Nat.mod_lt _ (by decide))

theorem crc32_lt (bytes : List Nat) : crc32 bytes < 4294967296 := by
  unfold crc32
  rcases bytes with _ | ⟨a, l⟩
  · decide
  · rw [List.foldl_cons]
    have key : ∀ (l : List Nat) (c : Nat), c < 4294967296 →
        l.foldl crc32_byte c < 4294967296 := by
      intro l
      induction l with
      | nil => intro c hc; simpa using hc
      | cons b l ih =>
        intro c _
        rw [List.foldl_cons]
        exact ih _ (crc32_byte_lt c b)
    exact key l _ (crc32_byte_lt 0 a)

theorem extract_congr {d e : SectorData} {lo hi : Nat}
    (h : ∀ j, lo ≤ j → j < hi → d j = e j) : extract d lo hi = extract e lo hi := by
  unfold extract
  apply List.map_congr_left
  intro k hk
  rw [List.mem_range] at hk
  exact h (lo + k) (by omega) (by omega)

theorem read_write_le32 (d : SectorData) (pos v : Nat) (h : v < 4294967296) :
    read_le32 (write_le32 d pos v) pos = v := by
  have e0 : write_le32 d pos v pos = v % 256 := by
    unfold write_le32 upd
    rw [if_neg (by omega), if_neg (by omega), if_neg (by omega), if_pos rfl]
  have e1 : write_le32 d pos v (pos + 1) = v / 256 % 256 := by
    unfold write_le32 upd
    rw [if_neg (by omega), if_neg (by omega), if_pos rfl]
  have e2 : write_le32 d pos v (pos + 2) = v / 65536 % 256 := by
    unfold write_le32 upd
    rw [if_neg (by omega), if_pos rfl]
  have e3 : write_le32 d pos v (pos + 3) = v / 16777216 % 256 := by
    unfold write_le32 upd
    rw [if_pos rfl]
  unfold read_le32
  rw [e0, e1, e2, e3]
  omega

theorem read_le32_congr {d e : SectorData} {pos : Nat}
    (h : ∀ j, pos ≤ j → j < pos + 4 → d j = e j) : read_le32 d pos = read_le32 e pos := by
  unfold read_le32
  rw [h pos (by omega) (by omega), h (pos + 1) (by omega) (by omega),
    h (pos + 2) (by omega) (by omega), h (pos + 3) (by omega) (by omega)]

theorem Sector.write_edc_ecc_edc_valid (s : Sector) : (s.write_edc_ecc).edc_valid = true := by
  rcases s with ⟨d, q, fmt⟩
  cases fmt
  case Audio => rfl
  case CdG => rfl
  case Mode1 =>
    have hC : crc32 (extract d 0 2064) < 4294967296 := crc32_lt _
    simp only [Sector.write_edc_ecc, Sector.edc_valid]
    have hx : extract (compute_ecc (setRange (write_le32 d 2064 (crc32 (extract d 0 2064)))
        2068 2076 0)) 0 2064 = extract d 0 2064 := by
      apply extract_congr
      intro j h1 h2
      simp only [compute_ecc, setRange, write_le32, upd]
      repeat rw [if_neg (by omega)]
    have hstep : ∀ j, 2064 ≤ j → j < 2064 + 4 →
        compute_ecc (setRange (write_le32 d 2064 (crc32 (extract d 0 2064))) 2068 2076 0) j =
          write_le32 d 2064 (crc32 (extract d 0 2064)) j := by
      intro j h1 h2
      simp only [compute_ecc, setRange]
      rw [if_neg (by omega), if_neg (by omega)]
    rw [hx, read_le32_congr hstep, read_write_le32 d 2064 _ hC]
    simp
  all_goals
  -- Mode2Xa and Mode2CdI share a single match arm in the source
  · by_cases hform : d 18 &&& (1 <<< 5) = 0
    · have hC : crc32 (extract d 16 2072) < 4294967296 := crc32_lt _
      simp only [Sector.write_edc_ecc, Sector.edc_valid, hform, if_true, if_pos]
      have h18 : (upd (upd (upd (upd (compute_ecc (upd (upd (upd (upd
          (write_le32 d 2072 (crc32 (extract d 16 2072))) 12 0) 13 0) 14 0) 15 0))
          12 (write_le32 d 2072 (crc32 (extract d 16 2072)) 12))
          13 (write_le32 d 2072 (crc32 (extract d 16 2072)) 13))
          14 (write_le32 d 2072 (crc32 (extract d 16 2072)) 14))
          15 (write_le32 d 2072 (crc32 (extract d 16 2072)) 15)) 18 = d 18 := by
        simp only [compute_ecc, setRange, write_le32, upd]
        norm_num
      rw [h18, if_pos hform]
      have hx : extract (upd (upd (upd (upd (compute_ecc (upd (upd (upd (upd
          (write_le32 d 2072 (crc32 (extract d 16 2072))) 12 0) 13 0) 14 0) 15 0))
          12 (write_le32 d 2072 (crc32 (extract d 16 2072)) 12))
          13 (write_le32 d 2072 (crc32 (extract d 16 2072)) 13))
          14 (write_le32 d 2072 (crc32 (extract d 16 2072)) 14))
          15 (write_le32 d 2072 (crc32 (extract d 16 2072)) 15)) 16 2072 =
          extract d 16 2072 := by
        apply extract_congr
        intro j h1 h2
        simp only [compute_ecc, setRange, write_le32, upd]
        repeat rw [if_neg (by omega)]
      have hstep : ∀ j, 2072 ≤ j → j < 2072 + 4 →
          (upd (upd (upd (upd (compute_ecc (upd (upd (upd (upd
            (write_le32 d 2072 (crc32 (extract d 16 2072))) 12 0) 13 0) 14 0) 15 0))
            12 (write_le32 d 2072 (crc32 (extract d 16 2072)) 12))
            13 (write_le32 d 2072 (crc32 (extract d 16 2072)) 13))
            14 (write_le32 d 2072 (crc32 (extract d 16 2072)) 14))
            15 (write_le32 d 2072 (crc32 (extract d 16 2072)) 15)) j =
            write_le32 d 2072 (crc32 (extract d 16 2072)) j := by
        intro j h1 h2
        simp only [compute_ecc, setRange, upd]
        repeat rw [if_neg (by omega)]
      rw [hx, read_le32_congr hstep, read_write_le32 d 2072 _ hC]
      simp
    · have hC : crc32 (extract d 16 2348) < 4294967296 := crc32_lt _
      simp only [Sector.write_edc_ecc, Sector.edc_valid, hform, if_false, if_neg]
      have h18 : write_le32 d 2348 (crc32 (extract d 16 2348)) 18 = d 18 := by
        simp only [write_le32, upd]
        norm_num
      rw [h18, if_neg hform, read_write_le32 d 2348 _ hC]
      have hx2 : extract (write_le32 d 2348 (crc32 (extract d 16 2348))) 16 2348 =
          extract d 16 2348 := by
        apply extract_congr
        intro j h1 h2
        simp only [write_le32, upd]
        repeat rw [if_neg (by omega)]
      rw [hx2]
      simp

/-- C4 evaluation at the failing input: a Mode1 sector whose byte 11 held
0xAA before `write_headers` still holds 0xAA afterwards — the source stores
the closing sync byte at index 12 (where it is immediately overwritten by
the minute byte) instead of index 11, so byte 11 is never written. -/
theorem c4_write_headers_byte11_eval :
    ((Sector.mk (upd (fun _ => 0) 11 0xAA)
        (Q.from_qdata (QData.Mode1 ⟨0x01⟩ ⟨0x01⟩ Msf.ZERO Msf.ZERO) .Mode1)
        .Mode1).write_headers).data 11 = 0xAA ∧ (0xAA : Nat) ≠ 0 := by
  constructor
  · decide
  · decide

/-- C3 evaluation at the failing inputs.  First conjunct: an in-track Mode2Xa
sector whose two submode copies (bytes 18 and 22) are both zero but whose
byte 19 is nonzero is *not* defaulted — the source guards the defaulting on
`data[18] == 0 && data[19] == 0`, testing byte 19 where its own comment says
byte 22.  Second conjunct: a sector with byte 22 nonzero (and bytes 18, 19
zero) has byte 22 overwritten with 0x08 even though a submode copy was
nonzero. -/
theorem c3_write_headers_submode_guard_eval :
    (((Sector.mk (upd (fun _ => 0) 19 1)
        (Q.from_qdata (QData.Mode1 ⟨0x01⟩ ⟨0x01⟩ Msf.ZERO Msf.ZERO) .Mode2Xa)
        .Mode2Xa).write_headers).data 18 = 0 ∧
     ((Sector.mk (upd (fun _ => 0) 19 1)
        (Q.from_qdata (QData.Mode1 ⟨0x01⟩ ⟨0x01⟩ Msf.ZERO Msf.ZERO) .Mode2Xa)
        .Mode2Xa).write_headers).data 22 = 0) ∧
    ((Sector.mk (upd (fun _ => 0) 22 7)
        (Q.from_qdata (QData.Mode1 ⟨0x01⟩ ⟨0x01⟩ Msf.ZERO Msf.ZERO) .Mode2Xa)
        .Mode2Xa).write_headers).data 22 = 0x08 := by
  refine ⟨⟨?_, ?_⟩, ?_⟩ <;> decide

/-- C9: every sector built by `Sector::empty` (hence for every Q/format pair
accepted by the compatibility check in `Sector::uninitialized`) satisfies
`edc_valid`: vacuously for Audio, and with the stored EDC matching the
recomputed CRC-32 over the format's covered range for Mode1 and for
Mode2Xa/Mode2CdI in both forms. -/
theorem c9_sector_empty_edc_valid (q : Q) (format : TrackFormat) (s : Sector)
    (h : Sector.empty q format = .ok s) : s.edc_valid = true := by
  unfold Sector.empty at h
  rcases hu : Sector.uninitialized q format with e | s0
  · rw [hu] at h
    cases h
  · simp only [hu] at h
    injection h with h
    subst h
    exact Sector.write_edc_ecc_edc_valid _

/-- Witness for C9: `Sector::empty` on an audio Q/format pair. -/
theorem c9_sector_empty_edc_valid_witness :
    Sector.empty (Q.from_qdata (QData.Mode1 ⟨0x01⟩ ⟨0x01⟩ Msf.ZERO Msf.ZERO) .Audio) .Audio =
      .ok (Sector.mk (fun _ => 0)
        (Q.from_qdata (QData.Mode1 ⟨0x01⟩ ⟨0x01⟩ Msf.ZERO Msf.ZERO) .Audio) .Audio) ∧
    (Sector.mk (fun _ => 0)
        (Q.from_qdata (QData.Mode1 ⟨0x01⟩ ⟨0x01⟩ Msf.ZERO Msf.ZERO) .Audio)
        .Audio).edc_valid = true :=
  ⟨rfl, c9_sector_empty_edc_valid
    (Q.from_qdata (QData.Mode1 ⟨0x01⟩ ⟨0x01⟩ Msf.ZERO Msf.ZERO) .Audio) .Audio
    (Sector.mk (fun _ => 0)
      (Q.from_qdata (QData.Mode1 ⟨0x01⟩ ⟨0x01⟩ Msf.ZERO Msf.ZERO) .Audio) .Audio) rfl⟩

/-- src/cue/mod.rs `CueTrackType`. -/
inductive CueTrackType where
  | Audio
  | Mode1Data
  | Mode1Raw
  | Mode2Headerless
  | Mode2Raw
  | CdIHeaderless
  | CdIRaw
  deriving DecidableEq

/-- src/cue/mod.rs `CueTrackType::sector_size`. -/
def CueTrackType.sector_size : CueTrackType → Nat
  | .Audio => 2352
  | .Mode1Data => 2048
  | .Mode1Raw => 2336
  | .Mode2Headerless => 2336
  | .Mode2Raw => 2352
  | .CdIHeaderless => 2336
  | .CdIRaw => 2352

/-- src/cue/parser.rs lines 286-296: the mapping from the CUE sheet `TRACK`
keyword to `CueTrackType` (`CDG` and unknown keywords are parse errors,
mapped to `none`). -/
def cue_track_type_of_keyword : String → Option CueTrackType
  | "AUDIO" => some .Audio
  | "MODE1/2048" => some .Mode1Data
  | "MODE1/2352" => some .Mode1Raw
  | "MODE2/2336" => some .Mode2Headerless
  | "MODE2/2352" => some .Mode2Raw
  | "CDI/2336" => some .CdIHeaderless
  | "CDI/2352" => some .CdIRaw
  | _ => none

/-- C1 evaluation at the failing input: `CueTrackType::sector_size` returns
2336 — not 2352 — for `Mode1Raw`, the type the parser assigns to `MODE1/2352`
tracks, while the other six types have the sizes the claim states. -/
theorem c1_sector_size_eval :
    CueTrackType.sector_size .Mode1Raw = 2336 ∧
    cue_track_type_of_keyword "MODE1/2352" = some .Mode1Raw ∧
    CueTrackType.sector_size .Audio = 2352 ∧
    CueTrackType.sector_size .Mode2Raw = 2352 ∧
    CueTrackType.sector_size .CdIRaw = 2352 ∧
    CueTrackType.sector_size .Mode1Data = 2048 ∧
    CueTrackType.sector_size .Mode2Headerless = 2336 ∧
    CueTrackType.sector_size .CdIHeaderless = 2336 := by
  refine ⟨rfl, rfl, rfl, rfl, rfl, rfl, rfl, rfl⟩

/-- src/lib.rs `Track`. -/
structure Track where
  track : Bcd
  format : TrackFormat
  start : Msf
  length : Msf
  deriving DecidableEq

/-- src/lib.rs `Toc`. -/
structure Toc where
  tracks : List Track
  deriving DecidableEq

/-- src/lib.rs `Toc::new`. -/
def Toc.new (tracks : List Track) : Except CdError Toc :=
  if tracks.isEmpty then .error .EmptyToc else .ok ⟨tracks⟩

/-- The `for t in self.tracks.iter()` loop of src/lib.rs
`Toc::session_format`: the loop returns on the first `Mode2Xa` or `Mode2CdI`
track and skips `Audio`, `CdG` and `Mode1`. -/
def session_format_loop : List Track → SessionFormat
  | [] => .CdDaCdRom
  | t :: ts =>
    match t.format with
    | .Mode2Xa => .CdXa
    | .Mode2CdI => .Cdi
    | _ => session_format_loop ts

/-- src/lib.rs `Toc::session_format`. -/
def Toc.session_format (t : Toc) : SessionFormat := session_format_loop t.tracks

/-- Counterexample for C2 as stated: a reachable ToC (accepted by `Toc::new`)
whose tracks are `[Mode2Xa, Mode2CdI]` yields `CdXa`, not `Cdi` — the loop
returns on the *first* Mode2Xa-or-Mode2CdI track, so Mode2CdI does not take
priority over an earlier Mode2Xa track. -/
theorem c2_session_format_counterexample :
    Toc.new [Track.mk ⟨0x01⟩ .Mode2Xa Msf.ZERO Msf.ZERO,
             Track.mk ⟨0x02⟩ .Mode2CdI Msf.ZERO Msf.ZERO] =
      .ok (Toc.mk [Track.mk ⟨0x01⟩ .Mode2Xa Msf.ZERO Msf.ZERO,
                   Track.mk ⟨0x02⟩ .Mode2CdI Msf.ZERO Msf.ZERO]) ∧
    (Toc.mk [Track.mk ⟨0x01⟩ .Mode2Xa Msf.ZERO Msf.ZERO,
             Track.mk ⟨0x02⟩ .Mode2CdI Msf.ZERO Msf.ZERO]).session_format = .CdXa ∧
    SessionFormat.CdXa ≠ SessionFormat.Cdi := by
  refine ⟨rfl, rfl, by decide⟩

/-- C2 as amended: `Toc::session_format` is decided by the *first* track
whose format is Mode2Xa or Mode2CdI — `CdXa` for Mode2Xa, `Cdi` for
Mode2CdI — and is `CdDaCdRom` when no such track exists; the Mode2CdI
condition does not take priority over an earlier Mode2Xa track. -/
theorem c2_session_format_first_special (t : Toc) :
    t.session_format =
      match t.tracks.find? (fun tr => tr.format == .Mode2Xa || tr.format == .Mode2CdI) with
      | some tr => if tr.format == .Mode2CdI then .Cdi else .CdXa
      | none => .CdDaCdRom := by
  rcases t with ⟨tracks⟩
  unfold Toc.session_format
  induction tracks with
  | nil => rfl
  | cons tr ts ih =>
    cases htr : tr.format <;>
      simp [session_format_loop, List.find?_cons, htr, ih]

/-- src/lib.rs `Toc::lead_out_start`: `self.tracks.last().unwrap()` followed
by `t.start + t.length`.  The `unwrap` is modelled by `Option.map`; the
infallible MSF addition by `Msf.addUnwrap`. -/
def Toc.lead_out_start? (t : Toc) : Option Msf :=
  t.tracks.getLast?.map (fun tr => Msf.addUnwrap tr.start tr.length)

/-- The ToC-entry offset computed by src/lib.rs `Toc::build_toc_sector`:
`nentries - ((index / 3) % nentries) - 1` with `nentries = ntracks + 3`. -/
def Toc.toc_entry_off (t : Toc) (index : Nat) : Nat :=
  let ntracks := t.tracks.length
  let nentries := ntracks + 3
  nentries - ((index / 3) % nentries) - 1

/-- The track lookup src/lib.rs `Toc::build_toc_sector` performs for a given
lead-in index: entry 0 reads `self.tracks[0]`, entries 1 and 2 read
`self.tracks.last().unwrap()`, and entry `n ≥ 3` reads
`self.tracks[(n - 3) as usize]`.  The panicking accesses are modelled as
`Option`. -/
def Toc.build_toc_sector_track (t : Toc) (index : Nat) : Option Track :=
  match t.toc_entry_off index with
  | 0 => t.tracks[0]?
  | 1 => t.tracks.getLast?
  | 2 => t.tracks.getLast?
  | n => t.tracks[n - 3]?

/-- C10: every `Toc` reachable through `Toc::new` has at least one track
(empty lists are rejected with `EmptyToc`), and on such a ToC the partial
operations inside `lead_out_start` and `build_toc_sector` are total: the
`last().unwrap()` calls and the `tracks[0]` / `tracks[entry - 3]` indexings
never fail for any lead-in index, the entry offset always lying below
`ntracks + 3` (and `entry - 3` below `ntracks`). -/
theorem c10_toc_partial_ops_total (ts : List Track) (t : Toc)
    (h : Toc.new ts = .ok t) :
    t.tracks ≠ [] ∧
    (t.lead_out_start?).isSome = true ∧
    ∀ index : Nat,
      t.toc_entry_off index < t.tracks.length + 3 ∧
      (3 ≤ t.toc_entry_off index → t.toc_entry_off index - 3 < t.tracks.length) ∧
      (t.build_toc_sector_track index).isSome = true := by
  unfold Toc.new at h
  rcases hif : ts.isEmpty with _ | _
  case true =>
    rw [hif] at h
    cases h
  case false =>
    rw [hif] at h
    simp only [Bool.false_eq_true, if_false] at h
    injection h with h
    subst h
    have hne : ts ≠ [] := by
      intro hnil
      rw [hnil] at hif
      cases hif
    have hlen : 0 < ts.length := List.length_pos.mpr hne
    have hlast : ts.getLast?.isSome = true := by
      rw [List.getLast?_isSome]
      exact hne
    refine ⟨hne, ?_, ?_⟩
    · unfold Toc.lead_out_start?
      show (Option.map (fun tr => Msf.addUnwrap tr.start tr.length) ts.getLast?).isSome = true
      rcases hgl : ts.getLast? with _ | v
      · rw [hgl] at hlast
        cases hlast
      · rfl
    · intro index
      have hmod := Nat.mod_lt (index / 3) (show ts.length + 3 > 0 by omega)
      have hoff : (Toc.mk ts).toc_entry_off index < ts.length + 3 := by
        show ts.length + 3 - index / 3 % (ts.length + 3) - 1 < ts.length + 3
        omega
      have hoff3 : 3 ≤ (Toc.mk ts).toc_entry_off index →
          (Toc.mk ts).toc_entry_off index - 3 < ts.length := by
        show 3 ≤ ts.length + 3 - index / 3 % (ts.length + 3) - 1 →
          ts.length + 3 - index / 3 % (ts.length + 3) - 1 - 3 < ts.length
        omega
      refine ⟨hoff, hoff3, ?_⟩
      unfold Toc.build_toc_sector_track
      rcases hv : (Toc.mk ts).toc_entry_off index with _ | _ | _ | n
      · show ts[0]?.isSome = true
        rw [List.getElem?_eq_getElem hlen]
        rfl
      · exact hlast
      · exact hlast
      · rw [hv] at hoff hoff3
        have hlt := hoff3 (by omega)
        show ts[n + 1 + 1 + 1 - 3]?.isSome = true
        rw [List.getElem?_eq_getElem hlt]
        rfl

/-- Witness for C10: `Toc::new` on a one-track list, with the entry offset
and track accesses evaluated at lead-in index 7. -/
theorem c10_toc_partial_ops_total_witness :
    Toc.new [Track.mk ⟨0x01⟩ .Mode1 Msf.ZERO Msf.ZERO] =
      .ok (Toc.mk [Track.mk ⟨0x01⟩ .Mode1 Msf.ZERO Msf.ZERO]) ∧
    (Toc.mk [Track.mk ⟨0x01⟩ .Mode1 Msf.ZERO Msf.ZERO]).tracks ≠ [] ∧
    ((Toc.mk [Track.mk ⟨0x01⟩ .Mode1 Msf.ZERO Msf.ZERO]).lead_out_start?).isSome = true ∧
    ((Toc.mk [Track.mk ⟨0x01⟩ .Mode1 Msf.ZERO Msf.ZERO]).build_toc_sector_track 7).isSome
      = true := by
  have h := c10_toc_partial_ops_total [Track.mk ⟨0x01⟩ .Mode1 Msf.ZERO Msf.ZERO]
    (Toc.mk [Track.mk ⟨0x01⟩ .Mode1 Msf.ZERO Msf.ZERO]) rfl
  exact ⟨rfl, h.1, h.2.1, (h.2.2 7).2.2⟩

/-- src/internal.rs `Index<T>`.  The Rust field `private` is a Lean keyword
and is named `privateData` here; `session` is a `u8`. -/
structure Index (T : Type) where
  sector_index : Nat
  index : Bcd
  track : Bcd
  format : TrackFormat
  session : Nat
  control : AdrControl
  privateData : T
  deriving DecidableEq

instance {T : Type} [Inhabited T] : Inhabited (Index T) :=
  ⟨⟨0, Bcd.ZERO, Bcd.ZERO, .Audio, 0, ⟨0⟩, default⟩⟩

/-- src/internal.rs `Index::new`. -/
def Index.new {T : Type} (index : Bcd) (start : Msf) (track : Bcd) (format : TrackFormat)
    (session : Nat) (control : AdrControl) (privateData : T) : Index T :=
  { sector_index := start.sector_index, index, track, format, session, control, privateData }

/-- src/internal.rs `Index::msf`: `Msf::from_sector_index(..).unwrap()`, the
panic modelled by the junk value `Msf.ZERO`. -/
def Index.msf {T : Type} (i : Index T) : Msf :=
  (Msf.from_sector_index i.sector_index).getD Msf.ZERO

/-- src/internal.rs `Index::is_pregap`. -/
def Index.is_pregap {T : Type} (i : Index T) : Bool := i.index.bcd == 0

/-- src/internal.rs `IndexCache<T>`. -/
structure IndexCache (T : Type) where
  indices : List (Index T)
  lead_out : Nat

/-- src/internal.rs `IndexCache::new`.  Rust's stable `sort` by the `Ord`
on `Index` (comparison of `sector_index`) is `List.mergeSort`, which is the
same stable merge sort.  The `file: PathBuf` parameter only feeds the
`BadImage` error payloads and is dropped.  The `indices[0]` access after the
emptiness check is modelled with `head?`; its `none` arm is unreachable. -/
def IndexCache.new {T : Type} (indices : List (Index T)) (lead_out : Msf) :
    Except CdError (IndexCache T) :=
  if indices.isEmpty then .error .BadImage
  else
    let sorted := indices.mergeSort (fun a b => a.sector_index ≤ b.sector_index)
    match sorted.head? with
    | none => .error .BadImage
    | some index0 =>
      if index0.sector_index ≠ 0 then .error .BadImage
      else .ok ⟨sorted, lead_out.sector_index⟩

/-- The loop of Rust's `slice::binary_search_by` (as called by
src/internal.rs): `left`/`right` bracket the search window; the comparator
`g` reports how element `i` compares to the target.  Returns `Ok(mid)`
(`Except.ok`) on an `Equal` probe and `Err(left)` (`Except.error`) with the
insertion point when the window empties. -/
def binary_search_loop (g : Nat → Ordering) (left right : Nat) : Except Nat Nat :=
  if _h : left < right then
    let mid := left + (right - left) / 2
    match g mid with
    | .lt => binary_search_loop g (mid + 1) right
    | .gt => binary_search_loop g left mid
    | .eq => .ok mid
  else .error left
termination_by right - left
decreasing_by
  · omega
  · omega

theorem binary_search_loop_ok (g : Nat → Ordering) :
    ∀ (fuel left right p : Nat), right - left ≤ fuel →
      binary_search_loop g left right = .ok p →
      left ≤ p ∧ p < right ∧ g p = .eq := by
  intro fuel
  induction fuel with
  | zero =>
    intro left right p hf h
    unfold binary_search_loop at h
    rw [dif_neg (by omega)] at h
    cases h
  | succ n ih =>
    intro left right p hf h
    unfold binary_search_loop at h
    by_cases hlr : left < right
    · rw [dif_pos hlr] at h
      rcases hg : g (left + (right - left) / 2) with _ | _ | _ <;> simp only [hg] at h
      · have := ih (left + (right - left) / 2 + 1) right p (by omega) h
        exact ⟨by omega, this.2.1, this.2.2⟩
      · injection h with h
        subst h
        exact ⟨by omega, by omega, hg⟩
      · have := ih left (left + (right - left) / 2) p (by omega) h
        exact ⟨this.1, by omega, this.2.2⟩
    · rw [dif_neg hlr] at h
      cases h

theorem binary_search_loop_err (g : Nat → Ordering) (N : Nat)
    (hlt : ∀ i j, i ≤ j → j < N → g j = .lt → g i = .lt)
    (hgt : ∀ i j, i ≤ j → j < N → g i = .gt → g j = .gt) :
    ∀ (fuel left right l : Nat), right - left ≤ fuel → left ≤ right → right ≤ N →
      binary_search_loop g left right = .error l →
      left ≤ l ∧ l ≤ right ∧ (∀ i, left ≤ i → i < l → g i = .lt) ∧
        (∀ i, l ≤ i → i < right → g i = .gt) := by
  intro fuel
  induction fuel with
  | zero =>
    intro left right l hf hlr0 hN h
    unfold binary_search_loop at h
    rw [dif_neg (by omega)] at h
    injection h with h
    subst h
    exact ⟨le_refl _, by omega, fun i h1 h2 => by omega, fun i h1 h2 => by omega⟩
  | succ n ih =>
    intro left right l hf hlr0 hN h
    unfold binary_search_loop at h
    by_cases hlr : left < right
    · rw [dif_pos hlr] at h
      rcases hg : g (left + (right - left) / 2) with _ | _ | _ <;> simp only [hg] at h
      · obtain ⟨h1, h2, h3, h4⟩ :=
          ih (left + (right - left) / 2 + 1) right l (by omega) (by omega) hN h
        refine ⟨by omega, h2, ?_, h4⟩
        intro i hi1 hi2
        by_cases hc : left + (right - left) / 2 + 1 ≤ i
        · exact h3 i hc hi2
        · exact hlt i (left + (right - left) / 2) (by omega) (by omega) hg
      · cases h
      · obtain ⟨h1, h2, h3, h4⟩ :=
          ih left (left + (right - left) / 2) l (by omega) (by omega) (by omega) h
        refine ⟨h1, by omega, h3, ?_⟩
        intro i hi1 hi2
        by_cases hc : i < left + (right - left) / 2
        · exact h4 i hi1 hc
        · exact hgt (left + (right - left) / 2) i (by omega) (by omega) hg
    · rw [dif_neg hlr] at h
      injection h with h
      subst h
      exact ⟨le_refl _, by omega, fun i h1 h2 => by omega, fun i h1 h2 => by omega⟩

theorem Bcd.eq_iff (a b : Bcd) : a = b ↔ a.bcd = b.bcd := by
  cases a
  cases b
  simp

/-- Strictly sorted access: on a `Pairwise R` list, earlier elements relate
to later ones. -/
theorem pairwise_getD {α : Type} [Inhabited α] {R : α → α → Prop} {l : List α}
    (h : l.Pairwise R) (i j : Nat) (hij : i < j) (hj : j < l.length) :
    R (l.getD i default) (l.getD j default) := by
  rw [List.getD_eq_getElem?_getD, List.getD_eq_getElem?_getD]
  rw [List.getElem?_eq_getElem (by omega), List.getElem?_eq_getElem hj]
  simp only [Option.getD_some]
  exact List.pairwise_iff_getElem.mp h i j (by omega) hj hij

theorem Msf.lt_iff_sector (a b : Msf) (ha : a.Valid) (hb : b.Valid) :
    Msf.lt a b ↔ a.sector_index < b.sector_index := by
  obtain ⟨⟨ham1, ham2⟩, ⟨has1, has2⟩, ⟨haf1, haf2⟩, has60, haf75⟩ := ha
  obtain ⟨⟨hbm1, hbm2⟩, ⟨hbs1, hbs2⟩, ⟨hbf1, hbf2⟩, hbs60, hbf75⟩ := hb
  have hm_lt : a.m.bcd < b.m.bcd ↔ a.m.binary < b.m.binary := by
    unfold Bcd.binary; omega
  have hm_eq : a.m.bcd = b.m.bcd ↔ a.m.binary = b.m.binary := by
    unfold Bcd.binary; omega
  have hs_lt : a.s.bcd < b.s.bcd ↔ a.s.binary < b.s.binary := by
    unfold Bcd.binary; omega
  have hs_eq : a.s.bcd = b.s.bcd ↔ a.s.binary = b.s.binary := by
    unfold Bcd.binary; omega
  have hf_lt : a.f.bcd < b.f.bcd ↔ a.f.binary < b.f.binary := by
    unfold Bcd.binary; omega
  have hAs : a.s.binary < 60 := by unfold Bcd.binary; omega
  have hAf : a.f.binary < 75 := by unfold Bcd.binary; omega
  have hBs : b.s.binary < 60 := by unfold Bcd.binary; omega
  have hBf : b.f.binary < 75 := by unfold Bcd.binary; omega
  have lex1 : Msf.lt a b ↔
      (a.m.bcd < b.m.bcd ∨ (a.m.bcd = b.m.bcd ∧
        (a.s.bcd < b.s.bcd ∨ (a.s.bcd = b.s.bcd ∧ a.f.bcd < b.f.bcd)))) := by
    unfold Msf.lt Msf.as_u32_bcd
    omega
  have lex2 : a.sector_index < b.sector_index ↔
      (a.m.binary < b.m.binary ∨ (a.m.binary = b.m.binary ∧
        (a.s.binary < b.s.binary ∨ (a.s.binary = b.s.binary ∧
          a.f.binary < b.f.binary)))) := by
    unfold Msf.sector_index
    omega
  rw [lex1, lex2, hm_lt, hm_eq, hs_lt, hs_eq, hf_lt]

/-- src/internal.rs `IndexCache::get`. -/
def IndexCache.get {T : Type} (c : IndexCache T) (pos : Nat) : Option (Index T) :=
  c.indices[pos]?

/-- src/internal.rs `IndexCache::find_index_for_msf`.  The comparator is
`index.sector_index.cmp(&sector)`; on a miss the predecessor `i - 1` is
taken; the final `&self.indices[pos]` indexing (a panic when out of bounds,
never hit on the cache shapes the claims quantify over) is modelled with
`getD default`. -/
def IndexCache.find_index_for_msf {T : Type} [Inhabited T] (c : IndexCache T) (msf : Msf) :
    Option (Nat × Index T) :=
  let sector := msf.sector_index
  if sector ≥ c.lead_out then none
  else
    let pos :=
      match binary_search_loop
          (fun i => compare (c.indices.getD i default).sector_index sector)
          0 c.indices.length with
      | .ok i => i
      | .error i => i - 1
    some (pos, c.indices.getD pos default)

/-- The comparator closure of src/internal.rs `IndexCache::find_index_for_track`:
`idx.track.cmp(&track).then(idx.index.cmp(&index))` (the `Ord` on `Bcd`
compares the raw bytes). -/
def Index.cmpKey {T : Type} (idx : Index T) (track index : Bcd) : Ordering :=
  match compare idx.track.bcd track.bcd with
  | .eq => compare idx.index.bcd index.bcd
  | o => o

/-- src/internal.rs `IndexCache::find_index_for_track`: binary search with
the comparator `Index.cmpKey`. -/
def IndexCache.find_index_for_track {T : Type} [Inhabited T] (c : IndexCache T)
    (track index : Bcd) : Except CdError (Nat × Index T) :=
  match binary_search_loop
      (fun i => (c.indices.getD i default).cmpKey track index)
      0 c.indices.length with
  | .ok i => .ok (i, c.indices.getD i default)
  | .error _ => .error .BadTrack

/-- src/internal.rs `IndexCache::find_index01_for_track`. -/
def IndexCache.find_index01_for_track {T : Type} [Inhabited T] (c : IndexCache T)
    (track : Bcd) : Except CdError (Nat × Index T) :=
  c.find_index_for_track track Bcd.ONE

/-- The `next_track`/`end` computation inside src/internal.rs
`IndexCache::track_length`: the iterator
`self.indices[pos01 + 1..].iter().find(|i| i.track() != track)` is
`(drop (pos01+1)).find?`; the track ends at the found index's sector, or at
the lead-out when no later index belongs to a different track. -/
def IndexCache.track_end_sector {T : Type} [Inhabited T] (c : IndexCache T)
    (track : Bcd) (pos01 : Nat) : Nat :=
  match (c.indices.drop (pos01 + 1)).find? (fun i => i.track != track) with
  | some next => next.sector_index
  | none => c.lead_out

/-- src/internal.rs `IndexCache::track_length`:
`Msf::from_sector_index(end - index01.sector_index).unwrap()` is modelled
with the junk value `Msf.ZERO` (u32 subtraction underflow, another panic
source, is Nat truncated subtraction here). -/
def IndexCache.track_length {T : Type} [Inhabited T] (c : IndexCache T) (track : Bcd) :
    Except CdError (Msf × Nat × Index T) :=
  match c.find_index01_for_track track with
  | .error e => .error e
  | .ok (pos01, index01) =>
    let len := (Msf.from_sector_index
        (c.track_end_sector track pos01 - index01.sector_index)).getD Msf.ZERO
    .ok (len, pos01, index01)

/-- src/internal.rs `IndexCache::track_msf`: `track_msf < len` uses the `Ord`
on `Msf` (comparison of `as_u32_bcd`); the infallible `+` is
`Msf.addUnwrap`. -/
def IndexCache.track_msf {T : Type} [Inhabited T] (c : IndexCache T) (track : Bcd)
    (track_msf : Msf) : Except CdError Msf :=
  match c.track_length track with
  | .error e => .error e
  | .ok (len, _, index01) =>
    if Msf.lt track_msf len then .ok (Msf.addUnwrap index01.msf track_msf)
    else .error .EndOfTrack

theorem mergeSort_sector_sorted {T : Type} (xs : List (Index T)) :
    (xs.mergeSort (fun a b => a.sector_index ≤ b.sector_index)).Pairwise
      (fun a b => a.sector_index ≤ b.sector_index) := by
  refine List.Pairwise.imp ?_ (List.sorted_mergeSort ?_ ?_ xs)
  · intro a b hab
    simpa using hab
  · intro a b c hab hbc
    simp only [decide_eq_true_eq] at *
    omega
  · intro a b
    simp only [Bool.or_eq_true, decide_eq_true_eq]
    omega

theorem IndexCache.new_ok_inv {T : Type} (xs : List (Index T)) (lo : Msf)
    (c : IndexCache T) (h : IndexCache.new xs lo = .ok c) :
    c.indices ≠ [] ∧ c.lead_out = lo.sector_index ∧
    c.indices.Pairwise (fun a b => a.sector_index ≤ b.sector_index) ∧
    ∀ i0, c.indices.head? = some i0 → i0.sector_index = 0 := by
  unfold IndexCache.new at h
  rcases hemp : xs.isEmpty with _ | _
  case true =>
    rw [hemp] at h
    cases h
  case false =>
    rw [hemp] at h
    simp only [Bool.false_eq_true, if_false] at h
    rcases hh : (xs.mergeSort (fun a b => a.sector_index ≤ b.sector_index)).head? with _ | i0
    · simp only [hh] at h
      cases h
    · simp only [hh] at h
      by_cases h0 : i0.sector_index ≠ 0
      · rw [if_pos h0] at h
        cases h
      · rw [if_neg h0] at h
        injection h with h
        subst h
        have hlen : 0 < xs.length := by
          cases xs
          · cases hemp
          · simp
        refine ⟨?_, rfl, ?_, ?_⟩
        · intro hnil
          have hml : (xs.mergeSort (fun a b => a.sector_index ≤ b.sector_index)).length =
              xs.length := List.length_mergeSort xs
          have hnil2 : xs.mergeSort (fun a b => a.sector_index ≤ b.sector_index) = [] := hnil
          rw [hnil2] at hml
          simp at hml
          omega
        · exact mergeSort_sector_sorted xs
        · intro j0 hj0
          have hj02 : (xs.mergeSort (fun a b => a.sector_index ≤ b.sector_index)).head? =
              some j0 := hj0
          rw [hh] at hj02
          injection hj02 with hj02
          subst hj02
          omega

/-- C7 (amended with strictly increasing sector indices): on every cache
built by `IndexCache::new`, `find_index_for_msf` returns `None` exactly for
MSFs at or past the lead-out; for an MSF before the lead-out it returns the
position and element of the last index whose `sector_index` does not exceed
the MSF's — an exact hit returns that index, and an MSF strictly between two
consecutive indices returns the earlier one. -/
theorem c7_find_index_for_msf {T : Type} [Inhabited T] (xs : List (Index T)) (lo : Msf)
    (c : IndexCache T) (hnew : IndexCache.new xs lo = .ok c)
    (hstrict : c.indices.Pairwise (fun a b => a.sector_index < b.sector_index))
    (msf : Msf) :
    (c.find_index_for_msf msf = none ↔ c.lead_out ≤ msf.sector_index) ∧
    (msf.sector_index < c.lead_out →
      ∃ p, c.find_index_for_msf msf = some (p, c.indices.getD p default) ∧
        p < c.indices.length ∧
        (c.indices.getD p default).sector_index ≤ msf.sector_index ∧
        (∀ j, p < j → j < c.indices.length →
          msf.sector_index < (c.indices.getD j default).sector_index)) := by
  obtain ⟨hne, hlo, hsorted, hhead⟩ := IndexCache.new_ok_inv xs lo c hnew
  have hN : 0 < c.indices.length := List.length_pos.mpr hne
  have hkey0 : (c.indices.getD 0 default).sector_index = 0 := by
    rcases hh : c.indices.head? with _ | i0
    · rw [List.head?_eq_none_iff] at hh
      exact absurd hh hne
    · have := hhead i0 hh
      rw [List.getD_eq_getElem?_getD, List.getElem?_eq_getElem hN]
      rw [List.head?_eq_getElem?, List.getElem?_eq_getElem hN] at hh
      injection hh with hh
      rw [hh]
      exact this
  constructor
  · constructor
    · intro h
      by_contra hc
      unfold IndexCache.find_index_for_msf at h
      rw [if_neg (by omega)] at h
      cases h
    · intro hge
      unfold IndexCache.find_index_for_msf
      rw [if_pos hge]
  · intro hlt2
    have hmono_le : ∀ i j, i ≤ j → j < c.indices.length →
        (c.indices.getD i default).sector_index ≤ (c.indices.getD j default).sector_index := by
      intro i j hij hj
      rcases Nat.lt_or_ge i j with hlt | hge
      · exact le_of_lt (pairwise_getD hstrict i j hlt hj)
      · have : i = j := by omega
        rw [this]
    rcases hbs : binary_search_loop
        (fun i => compare (c.indices.getD i default).sector_index msf.sector_index)
        0 c.indices.length with l | p
    · obtain ⟨h1, h2, h3, h4⟩ := binary_search_loop_err
        (fun i => compare (c.indices.getD i default).sector_index msf.sector_index)
        c.indices.length
        (fun i j hij hj hgj => by
          simp only [Nat.compare_eq_lt] at *
          exact lt_of_le_of_lt (hmono_le i j hij hj) hgj)
        (fun i j hij hj hgi => by
          simp only [Nat.compare_eq_gt] at *
          exact lt_of_lt_of_le hgi (hmono_le i j hij hj))
        c.indices.length 0 c.indices.length l (by omega) (by omega) (by omega) hbs
      have hl1 : 1 ≤ l := by
        by_contra hc
        have hg0 := h4 0 (by omega) (by omega)
        rw [Nat.compare_eq_gt] at hg0
        omega
      refine ⟨l - 1, ?_, by omega, ?_, ?_⟩
      · unfold IndexCache.find_index_for_msf
        rw [if_neg (by omega)]
        simp only [hbs]
      · have := h3 (l - 1) (by omega) (by omega)
        rw [Nat.compare_eq_lt] at this
        omega
      · intro j hj1 hj2
        have := h4 j (by omega) hj2
        rw [Nat.compare_eq_gt] at this
        omega
    · obtain ⟨h1, h2, h3⟩ := binary_search_loop_ok
        (fun i => compare (c.indices.getD i default).sector_index msf.sector_index)
        c.indices.length 0 c.indices.length p (by omega) hbs
      rw [Nat.compare_eq_eq] at h3
      refine ⟨p, ?_, h2, by omega, ?_⟩
      · unfold IndexCache.find_index_for_msf
        rw [if_neg (by omega)]
        simp only [hbs]
      · intro j hj1 hj2
        have := pairwise_getD hstrict p j hj1 hj2
        omega

/-- A concrete index list with a duplicated sector index (two indices at
sector 5, on tracks 2 and 3): already sorted by `sector_index`, first index
at sector 0, so `IndexCache::new` accepts it unchanged. -/
def c7cex_indices : List (Index Unit) :=
  [⟨0, Bcd.ONE, ⟨0x01⟩, .Mode1, 1, AdrControl.MODE1_DATA, ()⟩,
   ⟨5, Bcd.ONE, ⟨0x02⟩, .Mode1, 1, AdrControl.MODE1_DATA, ()⟩,
   ⟨5, Bcd.ONE, ⟨0x03⟩, .Mode1, 1, AdrControl.MODE1_DATA, ()⟩]

/-- C7, counterexample to the claim as stated: on the cache that
`IndexCache::new` builds from `c7cex_indices` (lead-out at sector 10,
i.e. MSF 00:00:10), `find_index_for_msf` at MSF 00:00:05 (sector 5) returns
position 1, yet position 2 < length also has `sector_index ≤ 5` — so the
result is NOT "the last index whose sector_index is ≤ msf.sector_index":
with duplicate sector indices the binary search may stop at any of the
equal keys.  (`IndexCache::new` only sorts; it never rejects duplicates.) -/
theorem c7_find_index_for_msf_counterexample :
    IndexCache.new c7cex_indices ⟨⟨0⟩, ⟨0⟩, ⟨0x10⟩⟩ = .ok ⟨c7cex_indices, 10⟩ ∧
    IndexCache.find_index_for_msf ⟨c7cex_indices, 10⟩ ⟨⟨0⟩, ⟨0⟩, ⟨0x05⟩⟩ =
      some (1, c7cex_indices.getD 1 default) ∧
    (c7cex_indices.getD 2 default).sector_index ≤
      (Msf.mk ⟨0⟩ ⟨0⟩ ⟨0x05⟩).sector_index ∧
    2 < c7cex_indices.length ∧
    c7cex_indices.getD 1 default ≠ c7cex_indices.getD 2 default := by
  refine ⟨?_, ?_, by decide, by decide, by decide⟩
  · simp [IndexCache.new, List.mergeSort, c7cex_indices, Msf.sector_index, Bcd.binary]
  · simp [IndexCache.find_index_for_msf, binary_search_loop, c7cex_indices,
      Msf.sector_index, Bcd.binary, List.getD, Nat.compare_eq_lt, Nat.compare_eq_gt,
      compare, compareOfLessAndEq]

/-- A concrete sorted index list with strictly increasing sector indices
(sectors 0 and 150). -/
def c7wit_indices : List (Index Unit) :=
  [⟨0, Bcd.ONE, ⟨0x01⟩, .Mode1, 1, AdrControl.MODE1_DATA, ()⟩,
   ⟨150, Bcd.ONE, ⟨0x02⟩, .Mode1, 1, AdrControl.MODE1_DATA, ()⟩]

/-- The cache `IndexCache::new` builds from `c7wit_indices` with lead-out
MSF 00:04:00 (sector 300). -/
def c7wit_cache : IndexCache Unit := ⟨c7wit_indices, 300⟩

theorem c7_find_index_for_msf_witness :
    IndexCache.new c7wit_indices ⟨⟨0⟩, ⟨0x04⟩, ⟨0⟩⟩ = .ok c7wit_cache ∧
    c7wit_cache.indices.Pairwise (fun a b => a.sector_index < b.sector_index) ∧
    ((c7wit_cache.find_index_for_msf ⟨⟨0⟩, ⟨0x02⟩, ⟨0x50⟩⟩ = none ↔
        c7wit_cache.lead_out ≤ (Msf.mk ⟨0⟩ ⟨0x02⟩ ⟨0x50⟩).sector_index) ∧
      ((Msf.mk ⟨0⟩ ⟨0x02⟩ ⟨0x50⟩).sector_index < c7wit_cache.lead_out →
        ∃ p, c7wit_cache.find_index_for_msf ⟨⟨0⟩, ⟨0x02⟩, ⟨0x50⟩⟩ =
            some (p, c7wit_cache.indices.getD p default) ∧
          p < c7wit_cache.indices.length ∧
          (c7wit_cache.indices.getD p default).sector_index ≤
            (Msf.mk ⟨0⟩ ⟨0x02⟩ ⟨0x50⟩).sector_index ∧
          (∀ j, p < j → j < c7wit_cache.indices.length →
            (Msf.mk ⟨0⟩ ⟨0x02⟩ ⟨0x50⟩).sector_index <
              (c7wit_cache.indices.getD j default).sector_index))) := by
  have hnew : IndexCache.new c7wit_indices ⟨⟨0⟩, ⟨0x04⟩, ⟨0⟩⟩ = .ok c7wit_cache := by
    simp [IndexCache.new, List.mergeSort, c7wit_indices, c7wit_cache,
      Msf.sector_index, Bcd.binary]
  have hstrict : c7wit_cache.indices.Pairwise
      (fun a b => a.sector_index < b.sector_index) := by
    simp [c7wit_cache, c7wit_indices]
  exact ⟨hnew, hstrict,
    c7_find_index_for_msf c7wit_indices ⟨⟨0⟩, ⟨0x04⟩, ⟨0⟩⟩ c7wit_cache hnew hstrict
      ⟨⟨0⟩, ⟨0x02⟩, ⟨0x50⟩⟩⟩

theorem Index.cmpKey_lt_iff {T : Type} (idx : Index T) (t n : Bcd) :
    idx.cmpKey t n = .lt ↔
      (idx.track.bcd < t.bcd ∨ (idx.track.bcd = t.bcd ∧ idx.index.bcd < n.bcd)) := by
  unfold Index.cmpKey
  rcases h : compare idx.track.bcd t.bcd with _ | _ | _ <;> simp only [h]
  · rw [Nat.compare_eq_lt] at h
    simp [h]
  · rw [Nat.compare_eq_eq] at h
    rw [Nat.compare_eq_lt]
    omega
  · rw [Nat.compare_eq_gt] at h
    constructor
    · intro hc
      exact Ordering.noConfusion hc
    · intro hc
      exact absurd hc (by omega)

theorem Index.cmpKey_gt_iff {T : Type} (idx : Index T) (t n : Bcd) :
    idx.cmpKey t n = .gt ↔
      (t.bcd < idx.track.bcd ∨ (idx.track.bcd = t.bcd ∧ n.bcd < idx.index.bcd)) := by
  unfold Index.cmpKey
  rcases h : compare idx.track.bcd t.bcd with _ | _ | _ <;> simp only [h]
  · rw [Nat.compare_eq_lt] at h
    constructor
    · intro hc
      exact Ordering.noConfusion hc
    · intro hc
      exact absurd hc (by omega)
  · rw [Nat.compare_eq_eq] at h
    rw [Nat.compare_eq_gt]
    omega
  · rw [Nat.compare_eq_gt] at h
    simp [h]

theorem Index.cmpKey_eq_iff {T : Type} (idx : Index T) (t n : Bcd) :
    idx.cmpKey t n = .eq ↔
      (idx.track.bcd = t.bcd ∧ idx.index.bcd = n.bcd) := by
  unfold Index.cmpKey
  rcases h : compare idx.track.bcd t.bcd with _ | _ | _ <;> simp only [h]
  · rw [Nat.compare_eq_lt] at h
    constructor
    · intro hc
      exact Ordering.noConfusion hc
    · intro hc
      exact absurd hc (by omega)
  · rw [Nat.compare_eq_eq] at h
    rw [Nat.compare_eq_eq]
    omega
  · rw [Nat.compare_eq_gt] at h
    constructor
    · intro hc
      exact Ordering.noConfusion hc
    · intro hc
      exact absurd hc (by omega)

/-- `find_index_for_track` succeeds on caches strictly sorted by (track,
index) when the key is present, returning its (unique) position. -/
theorem IndexCache.find_index_for_track_found {T : Type} [Inhabited T] (c : IndexCache T)
    (track index : Bcd)
    (hpair : c.indices.Pairwise (fun a b =>
      a.track.bcd < b.track.bcd ∨ (a.track.bcd = b.track.bcd ∧ a.index.bcd < b.index.bcd)))
    (p : Nat) (hp : p < c.indices.length)
    (ht : (c.indices.getD p default).track.bcd = track.bcd)
    (hi : (c.indices.getD p default).index.bcd = index.bcd) :
    c.find_index_for_track track index = .ok (p, c.indices.getD p default) := by
  unfold IndexCache.find_index_for_track
  rcases hbs : binary_search_loop
      (fun i => (c.indices.getD i default).cmpKey track index) 0 c.indices.length with l | q
  · exfalso
    obtain ⟨h1, h2, h3, h4⟩ := binary_search_loop_err
      (fun i => (c.indices.getD i default).cmpKey track index) c.indices.length
      (fun i j hij hj hgj => by
        rcases Nat.lt_or_ge i j with hij2 | hij2
        · have hk := pairwise_getD hpair i j hij2 hj
          rw [Index.cmpKey_lt_iff] at hgj ⊢
          omega
        · have : i = j := by omega
          rw [this]
          exact hgj)
      (fun i j hij hj hgi => by
        rcases Nat.lt_or_ge i j with hij2 | hij2
        · have hk := pairwise_getD hpair i j hij2 hj
          rw [Index.cmpKey_gt_iff] at hgi ⊢
          omega
        · have : i = j := by omega
          rw [this] at hgi
          exact hgi)
      c.indices.length 0 c.indices.length l (by omega) (by omega) (le_refl _) hbs
    rcases Nat.lt_or_ge p l with hc | hc
    · have := h3 p (by omega) hc
      rw [Index.cmpKey_lt_iff] at this
      omega
    · have := h4 p hc hp
      rw [Index.cmpKey_gt_iff] at this
      omega
  · simp only [hbs]
    obtain ⟨h1, h2, h3⟩ := binary_search_loop_ok
      (fun i => (c.indices.getD i default).cmpKey track index)
      c.indices.length 0 c.indices.length q (by omega) hbs
    rw [Index.cmpKey_eq_iff] at h3
    have hqp : q = p := by
      rcases Nat.lt_trichotomy q p with hlt | heq | hgt
      · have := pairwise_getD hpair q p hlt hp
        omega
      · exact heq
      · have := pairwise_getD hpair p q hgt h2
        omega
    rw [hqp]

/-- `find_index_for_track` fails with `BadTrack` when no index carries the
searched (track, index) key — on any cache, sorted or not. -/
theorem IndexCache.find_index_for_track_absent {T : Type} [Inhabited T] (c : IndexCache T)
    (track index : Bcd)
    (habs : ∀ p, p < c.indices.length →
      ¬((c.indices.getD p default).track.bcd = track.bcd ∧
        (c.indices.getD p default).index.bcd = index.bcd)) :
    c.find_index_for_track track index = .error .BadTrack := by
  unfold IndexCache.find_index_for_track
  rcases hbs : binary_search_loop
      (fun i => (c.indices.getD i default).cmpKey track index) 0 c.indices.length with l | q
  · simp only [hbs]
  · exfalso
    obtain ⟨h1, h2, h3⟩ := binary_search_loop_ok
      (fun i => (c.indices.getD i default).cmpKey track index)
      c.indices.length 0 c.indices.length q (by omega) hbs
    rw [Index.cmpKey_eq_iff] at h3
    exact habs q h2 h3

/-- C8 (amended with the cache strictly sorted by the (track, index) key,
which is what the binary search in `find_index_for_track` requires; the two
numeric side conditions make the `u32` subtraction and the
`Msf::from_sector_index(..).unwrap()` in `track_length` well defined): when
the cache holds an INDEX 01 for the track, `track_msf(track, m)` returns
`index01.msf() + m` for `m` strictly inside the track — whose length runs
from INDEX 01 to the first following index of a different track, or to the
lead-out — and fails with exactly `EndOfTrack` for `m` at or past the
track's length; when no INDEX 01 for the track exists it fails with exactly
`BadTrack`. -/
theorem c8_track_msf {T : Type} [Inhabited T] (c : IndexCache T) (track : Bcd) (m : Msf)
    (hpair : c.indices.Pairwise (fun a b =>
      a.track.bcd < b.track.bcd ∨ (a.track.bcd = b.track.bcd ∧ a.index.bcd < b.index.bcd))) :
    ((∀ p, p < c.indices.length →
        ¬((c.indices.getD p default).track.bcd = track.bcd ∧
          (c.indices.getD p default).index.bcd = Bcd.ONE.bcd)) →
      c.track_msf track m = .error .BadTrack) ∧
    (∀ p01, p01 < c.indices.length →
      (c.indices.getD p01 default).track.bcd = track.bcd →
      (c.indices.getD p01 default).index.bcd = Bcd.ONE.bcd →
      m.Valid →
      (c.indices.getD p01 default).sector_index ≤ c.track_end_sector track p01 →
      c.track_end_sector track p01 - (c.indices.getD p01 default).sector_index < 450000 →
      ((m.sector_index <
          c.track_end_sector track p01 - (c.indices.getD p01 default).sector_index →
        c.track_msf track m = .ok (Msf.addUnwrap (c.indices.getD p01 default).msf m)) ∧
       (c.track_end_sector track p01 - (c.indices.getD p01 default).sector_index ≤
          m.sector_index →
        c.track_msf track m = .error .EndOfTrack))) := by
  constructor
  · intro habs
    have hf : c.find_index01_for_track track = .error .BadTrack := by
      unfold IndexCache.find_index01_for_track
      exact IndexCache.find_index_for_track_absent c track Bcd.ONE habs
    unfold IndexCache.track_msf IndexCache.track_length
    simp only [hf]
  · intro p01 hp ht hi hmv hle hd
    have hf : c.find_index01_for_track track = .ok (p01, c.indices.getD p01 default) := by
      unfold IndexCache.find_index01_for_track
      exact IndexCache.find_index_for_track_found c track Bcd.ONE hpair p01 hp ht hi
    obtain ⟨lenM, hsome, hval, hsec⟩ := Msf.from_sector_index_eq
      (c.track_end_sector track p01 - (c.indices.getD p01 default).sector_index) hd
    have htl : c.track_length track = .ok (lenM, p01, c.indices.getD p01 default) := by
      unfold IndexCache.track_length
      simp only [hf, hsome, Option.getD_some]
    constructor
    · intro hlt
      have hmsflt : Msf.lt m lenM := by
        rw [Msf.lt_iff_sector m lenM hmv hval, hsec]
        exact hlt
      unfold IndexCache.track_msf
      simp only [htl]
      rw [if_pos hmsflt]
    · intro hge
      have hnot : ¬ Msf.lt m lenM := by
        rw [Msf.lt_iff_sector m lenM hmv hval, hsec]
        omega
      unfold IndexCache.track_msf
      simp only [htl]
      rw [if_neg hnot]

/-- A concrete index list that `IndexCache::new` accepts as-is (sorted by
sector index, first at sector 0) but whose (track, index) keys are NOT in
order: tracks appear as 2, 3, 1. -/
def c8cex_indices : List (Index Unit) :=
  [⟨0, Bcd.ONE, ⟨0x02⟩, .Mode1, 1, AdrControl.MODE1_DATA, ()⟩,
   ⟨10, Bcd.ONE, ⟨0x03⟩, .Mode1, 1, AdrControl.MODE1_DATA, ()⟩,
   ⟨20, Bcd.ONE, ⟨0x01⟩, .Mode1, 1, AdrControl.MODE1_DATA, ()⟩]

/-- C8, counterexample to the claim as stated over every `IndexCache`: the
cache that `IndexCache::new` builds from `c8cex_indices` (lead-out at sector
30) contains an INDEX 01 for track 1 at position 2, yet
`track_msf(1, 00:00:00)` fails with `BadTrack`: `IndexCache::new` sorts by
sector index only, and the binary search in `find_index_for_track` compares
(track, index) keys, which this cache does not keep in order, so the search
misses the present key. -/
theorem c8_track_msf_counterexample :
    IndexCache.new c8cex_indices ⟨⟨0⟩, ⟨0⟩, ⟨0x30⟩⟩ = .ok ⟨c8cex_indices, 30⟩ ∧
    (c8cex_indices.getD 2 default).track.bcd = (Bcd.mk 0x01).bcd ∧
    (c8cex_indices.getD 2 default).index.bcd = Bcd.ONE.bcd ∧
    2 < c8cex_indices.length ∧
    IndexCache.track_msf ⟨c8cex_indices, 30⟩ ⟨0x01⟩ Msf.ZERO = .error .BadTrack := by
  refine ⟨?_, by decide, by decide, by decide, ?_⟩
  · simp [IndexCache.new, List.mergeSort, c8cex_indices, Msf.sector_index, Bcd.binary]
  · simp [IndexCache.track_msf, IndexCache.track_length, IndexCache.find_index01_for_track,
      IndexCache.find_index_for_track, Index.cmpKey, binary_search_loop, c8cex_indices,
      compare, compareOfLessAndEq, Bcd.ONE]

/-- A concrete index list sorted both by sector index and by (track, index)
key: INDEX 01 of track 1 at sector 0, INDEX 01 of track 2 at sector 150. -/
def c8wit_indices : List (Index Unit) :=
  [⟨0, Bcd.ONE, ⟨0x01⟩, .Mode1, 1, AdrControl.MODE1_DATA, ()⟩,
   ⟨150, Bcd.ONE, ⟨0x02⟩, .Mode1, 1, AdrControl.MODE1_DATA, ()⟩]

/-- The cache over `c8wit_indices` with lead-out at sector 300. -/
def c8wit_cache : IndexCache Unit := ⟨c8wit_indices, 300⟩

theorem c8_track_msf_witness :
    (c8wit_cache.indices.Pairwise (fun a b =>
      a.track.bcd < b.track.bcd ∨ (a.track.bcd = b.track.bcd ∧ a.index.bcd < b.index.bcd))) ∧
    (((∀ p, p < c8wit_cache.indices.length →
        ¬((c8wit_cache.indices.getD p default).track.bcd = (Bcd.mk 0x01).bcd ∧
          (c8wit_cache.indices.getD p default).index.bcd = Bcd.ONE.bcd)) →
      c8wit_cache.track_msf ⟨0x01⟩ ⟨⟨0⟩, ⟨0⟩, ⟨0x10⟩⟩ = .error .BadTrack) ∧
    (∀ p01, p01 < c8wit_cache.indices.length →
      (c8wit_cache.indices.getD p01 default).track.bcd = (Bcd.mk 0x01).bcd →
      (c8wit_cache.indices.getD p01 default).index.bcd = Bcd.ONE.bcd →
      (Msf.mk ⟨0⟩ ⟨0⟩ ⟨0x10⟩).Valid →
      (c8wit_cache.indices.getD p01 default).sector_index ≤
        c8wit_cache.track_end_sector ⟨0x01⟩ p01 →
      c8wit_cache.track_end_sector ⟨0x01⟩ p01 -
        (c8wit_cache.indices.getD p01 default).sector_index < 450000 →
      (((Msf.mk ⟨0⟩ ⟨0⟩ ⟨0x10⟩).sector_index <
          c8wit_cache.track_end_sector ⟨0x01⟩ p01 -
            (c8wit_cache.indices.getD p01 default).sector_index →
        c8wit_cache.track_msf ⟨0x01⟩ ⟨⟨0⟩, ⟨0⟩, ⟨0x10⟩⟩ =
          .ok (Msf.addUnwrap (c8wit_cache.indices.getD p01 default).msf
            ⟨⟨0⟩, ⟨0⟩, ⟨0x10⟩⟩)) ∧
       (c8wit_cache.track_end_sector ⟨0x01⟩ p01 -
            (c8wit_cache.indices.getD p01 default).sector_index ≤
          (Msf.mk ⟨0⟩ ⟨0⟩ ⟨0x10⟩).sector_index →
        c8wit_cache.track_msf ⟨0x01⟩ ⟨⟨0⟩, ⟨0⟩, ⟨0x10⟩⟩ = .error .EndOfTrack)))) := by
  have hpair : c8wit_cache.indices.Pairwise (fun a b =>
      a.track.bcd < b.track.bcd ∨ (a.track.bcd = b.track.bcd ∧ a.index.bcd < b.index.bcd)) := by
    simp [c8wit_cache, c8wit_indices]
  exact ⟨hpair, c8_track_msf c8wit_cache ⟨0x01⟩ ⟨⟨0⟩, ⟨0⟩, ⟨0x10⟩⟩ hpair⟩

end Cdimage
